import Mathlib

/-!
Verification of the zenith-bundler core against its specification.

The Rust sources are shallowly embedded: strings are Lean `String`s
(lists of characters; Rust byte-level operations work on UTF-8 bytes,
modelled by an explicit encoder), machine integers are `Nat`/`Int` with
explicit wrapping arithmetic, fallible functions return `Except String`.
-/

/-! ## Rust string primitives -/

/-- Unicode `White_Space` set, as used by Rust `char::is_whitespace`,
`str::trim` and `str::split_whitespace`. -/
def rustIsWhitespace (c : Char) : Bool :=
  let n := c.toNat
  (0x9 ≤ n && n ≤ 0xD) || n == 0x20 || n == 0x85 || n == 0xA0 || n == 0x1680 ||
  (0x2000 ≤ n && n ≤ 0x200A) || n == 0x2028 || n == 0x2029 || n == 0x202F ||
  n == 0x205F || n == 0x3000

/-- Rust `str::trim` on a character list. -/
def rustTrimList (cs : List Char) : List Char :=
  ((cs.dropWhile rustIsWhitespace).reverse.dropWhile rustIsWhitespace).reverse

/-- Rust `str::trim`. -/
def rustTrim (s : String) : String := ⟨rustTrimList s.data⟩

/-- Rust `str::split_whitespace` on a character list: maximal runs of
non-whitespace characters, in order. -/
def splitWsList (cs : List Char) : List (List Char) :=
  (cs.foldr
    (fun c acc =>
      if rustIsWhitespace c then [] :: acc
      else
        match acc with
        | [] => [[c]]
        | w :: ws => (c :: w) :: ws)
    []).filter (fun w => !w.isEmpty)

/-- Rust `str::split_whitespace`. -/
def splitWs (s : String) : List String := (splitWsList s.data).map (fun w => ⟨w⟩)

/-- Value of a list of decimal digit characters. -/
def digitsToNat (ds : List Char) : Nat :=
  ds.foldl (fun acc c => acc * 10 + (c.toNat - 48)) 0

/-- Rust `str::parse::<usize>()`: an optional leading plus sign, then one or
more decimal digits; values of 2^64 or more overflow and fail. -/
def parse_usize (s : String) : Option Nat :=
  let cs := match s.data with
    | '+' :: rest => rest
    | cs => cs
  if cs.isEmpty then none
  else if cs.all (fun c => c.isDigit) then
    let v := digitsToNat cs
    if v < 2 ^ 64 then some v else none
  else none

/-- Boolean list-prefix test. -/
def isPre : List Char → List Char → Bool
  | [], _ => true
  | _ :: _, [] => false
  | a :: as, b :: bs => a == b && isPre as bs

/-- Rust `str::contains` (substring containment) on character lists. -/
def containsSubList (pat : List Char) : List Char → Bool
  | [] => isPre pat []
  | c :: t => isPre pat (c :: t) || containsSubList pat t

/-- Rust `str::contains` for a substring pattern. -/
def rust_contains (hay pat : String) : Bool := containsSubList pat.data hay.data

/-- Rust `str::replacen(pat, rep, 1)` on character lists: replace the
leftmost occurrence of `pat`, if any. -/
def replacenList (pat rep : List Char) : List Char → List Char
  | [] => []
  | c :: t =>
    if isPre pat (c :: t) then rep ++ (c :: t).drop pat.length
    else c :: replacenList pat rep t

/-- Rust `str::replacen(pat, rep, 1)`. -/
def rust_replacen1 (hay pat rep : String) : String := ⟨replacenList pat.data rep.data hay.data⟩

/-- Rust `source.replace("\r\n", "\n")`: one left-to-right pass replacing
every (non-overlapping) CRLF pair by LF. -/
def lfNormList : List Char → List Char
  | [] => []
  | [c] => [c]
  | c1 :: c2 :: rest =>
    if c1 = '\r' && c2 = '\n' then '\n' :: lfNormList rest
    else c1 :: lfNormList (c2 :: rest)

/-- CRLF → LF normalization on strings. -/
def lfNormalize (s : String) : String := ⟨lfNormList s.data⟩

/-- UTF-8 encoding of one character (1–4 bytes). -/
def utf8Bytes (c : Char) : List Nat :=
  let u := c.toNat
  if u < 0x80 then [u]
  else if u < 0x800 then [0xC0 + u / 64, 0x80 + u % 64]
  else if u < 0x10000 then [0xE0 + u / 4096, 0x80 + u / 64 % 64, 0x80 + u % 64]
  else [0xF0 + u / 262144, 0x80 + u / 4096 % 64, 0x80 + u / 64 % 64, 0x80 + u % 64]

/-- The UTF-8 byte sequence of a string, as iterated by Rust `str::bytes`. -/
def strBytes (s : String) : List Nat := (s.data.map utf8Bytes).flatten

/-! ## Hashing utility (`stable_hash_8`, src/src/main.rs:468) -/

/-- The modulus 2^32 of 32-bit wrapping arithmetic. -/
def U32MOD : Nat := 4294967296

/-- Model of `i32::wrapping_shl(5)` on the 32-bit pattern of the accumulator. -/
def wrapping_shl5 (h : Nat) : Nat := h * 32 % U32MOD

/-- Model of `i32::wrapping_sub` on 32-bit patterns (`b` must be below 2^32). -/
def wrapping_sub32 (a b : Nat) : Nat := (a + (U32MOD - b)) % U32MOD

/-- Model of `i32::wrapping_add` of a byte on 32-bit patterns. -/
def wrapping_add32 (a b : Nat) : Nat := (a + b) % U32MOD

/-- Model of `i32::wrapping_abs` followed by `as u32`, on 32-bit patterns. -/
def wrapping_abs32 (n : Nat) : Nat := if n < 2 ^ 31 then n else (U32MOD - n) % U32MOD

/-- Lowercase hex digit for a value below 16. -/
def hexDigit (n : Nat) : Char :=
  if n < 10 then Char.ofNat (48 + n) else Char.ofNat (87 + n)

/-- Rust `format!("{:08x}")` for a `u32` value: exactly eight lowercase,
zero-padded hex digits. -/
def toHex8 (n : Nat) : String :=
  ⟨[hexDigit (n / 16 ^ 7 % 16), hexDigit (n / 16 ^ 6 % 16), hexDigit (n / 16 ^ 5 % 16),
    hexDigit (n / 16 ^ 4 % 16), hexDigit (n / 16 ^ 3 % 16), hexDigit (n / 16 ^ 2 % 16),
    hexDigit (n / 16 % 16), hexDigit (n % 16)]⟩

/-- One accumulator step of `stable_hash_8`:
`hash.wrapping_shl(5).wrapping_sub(hash).wrapping_add(byte)`. -/
def hashStep (hash byte : Nat) : Nat :=
  wrapping_add32 (wrapping_sub32 (wrapping_shl5 hash) hash) byte

/-- Model of `stable_hash_8` (src/src/main.rs:468): fold the byte sequence through
`hashStep` from 0, take the wrapping absolute value reinterpreted as `u32`,
and format as 8 lowercase hex digits. -/
def stable_hash_8 (content : String) : String :=
  toHex8 (wrapping_abs32 ((strBytes content).foldl hashStep 0))

/-- Normalization of an integer into the signed 32-bit range
[-2^31, 2^31), congruent mod 2^32. -/
def wrap_i32 (z : Int) : Int := (z + 2 ^ 31) % 2 ^ 32 - 2 ^ 31

/-- One accumulator step of the reference hash from the spec:
`acc = acc*31 + byte` in wrapping signed 32-bit arithmetic. -/
def specHashStep (acc : Int) (byte : Nat) : Int := wrap_i32 (acc * 31 + byte)

/-- Reference hash of spec §4.1, with a signed 32-bit accumulator: fold
`acc*31 + byte`, take the (wrapping) absolute value, reinterpret as an
unsigned 32-bit integer, format as lowercase zero-padded 8-digit hex. -/
def spec_hash8 (content : String) : String :=
  let acc := (strBytes content).foldl specHashStep 0
  toHex8 ((wrap_i32 |acc| % 2 ^ 32).toNat)

/-! ## HTML script injection (`inject_script_once`, src/src/main.rs:438) -/

/-- The script tag text built by `inject_script_once`. -/
def script_tag (script_src marker_attr : String) : String :=
  "<script type=\"module\" src=\"" ++ script_src ++ "\" " ++ marker_attr ++ "></script>"

/-- Model of `inject_script_once` (src/src/main.rs:438): skip when the exact `src`
already occurs, else insert the tag before the first `</body>`, else append. -/
def inject_script_once (html script_src marker_attr : String) : String :=
  if rust_contains html script_src then html
  else
    let tag := script_tag script_src marker_attr
    if rust_contains html "</body>" then rust_replacen1 html "</body>" (tag ++ "</body>")
    else html ++ tag

/-! ## Router manifest aggregation (`upsert_router_manifest`, src/src/main.rs:1322) -/

/-- A route entry of the router manifest (src/src/main.rs:116). -/
structure RouterRouteEntry where
  path : String
  output : String
  html : String
  expressions : List String
deriving DecidableEq, Repr

/-- The persisted router manifest (src/src/main.rs:110); `Default` in Rust
gives the empty route list. -/
structure RouterManifest where
  routes : List RouterRouteEntry
deriving DecidableEq, Repr

/-- Lexicographic comparison of character lists by code point; agrees with
Rust byte-wise `str` ordering on UTF-8 data. -/
def charListLe : List Char → List Char → Bool
  | [], _ => true
  | _ :: _, [] => false
  | a :: as, b :: bs =>
    if a.toNat < b.toNat then true
    else if b.toNat < a.toNat then false
    else charListLe as bs

/-- Path order used by the manifest sort (`sort_by(|a, b| a.path.cmp(&b.path))`). -/
def pathLe (a b : RouterRouteEntry) : Prop := charListLe a.path.data b.path.data = true

instance : DecidableRel pathLe := fun a b => decEq _ _

/-- The replace-in-place-or-append step of the upsert: replace the first
entry with the incoming path, else push at the end. -/
def upsertRoutes : List RouterRouteEntry → RouterRouteEntry → List RouterRouteEntry
  | [], e => [e]
  | x :: xs, e => if x.path = e.path then e :: xs else x :: upsertRoutes xs e

/-- The pure core of `upsert_router_manifest` (src/src/main.rs:1322): a
missing manifest file is the empty manifest, the entry is replaced-by-path or
appended, and the routes are sorted by path before persisting.  Rust's
`sort_by` is a stable sort, extensionally equal to insertion sort for the
same key order. -/
def upsert_router_manifest (existing : Option RouterManifest) (entry : RouterRouteEntry) :
    RouterManifest :=
  let manifest := existing.getD ⟨[]⟩
  ⟨List.insertionSort pathLe (upsertRoutes manifest.routes entry)⟩

instance : IsTotal RouterRouteEntry pathLe := by
  constructor
  intro a b
  have key : ∀ x y : List Char, charListLe x y = true ∨ charListLe y x = true := by
    intro x
    induction x with
    | nil => intro y; exact Or.inl rfl
    | cons c cs ih =>
      intro y
      cases y with
      | nil => exact Or.inr rfl
      | cons d ds =>
        by_cases h1 : c.toNat < d.toNat
        · exact Or.inl (by simp [charListLe, h1])
        · by_cases h2 : d.toNat < c.toNat
          · exact Or.inr (by simp [charListLe, h2])
          · rcases ih ds with h | h
            · exact Or.inl (by simp [charListLe, h1, h2, h])
            · exact Or.inr (by simp [charListLe, h1, h2, h])
  exact key a.path.data b.path.data

instance : IsTrans RouterRouteEntry pathLe := by
  constructor
  intro a b c
  have key : ∀ x y z : List Char, charListLe x y = true → charListLe y z = true →
      charListLe x z = true := by
    intro x
    induction x with
    | nil => intro y z _ _; rfl
    | cons cx xs ih =>
      intro y z h1 h2
      cases y with
      | nil => exact absurd h1 (by simp [charListLe])
      | cons cy ys =>
        cases z with
        | nil => exact absurd h2 (by simp [charListLe])
        | cons cz zs =>
          simp only [charListLe] at h1 h2 ⊢
          split_ifs at h1 h2 ⊢ <;> first
          | rfl
          | (exact ih ys zs h1 h2)
          | omega
  exact key a.path.data b.path.data c.path.data

/-! ## CSS pruning engine (src/_legacy_v1/src/css.rs) -/

/-- One simple-selector component of a CSS compound: a class component
(`.name`) or any other component (element, id, universal, pseudo, ...). -/
inductive SelComp where
  | classComp (name : String)
  | otherComp (text : String)
deriving DecidableEq, Repr

/-- A full CSS selector as stored by the parcel_selectors crate backing
lightningcss: the compound sequences (maximal runs of simple selectors
between combinators), kept in matching order, i.e. the rightmost (subject)
compound first. `Selector::iter()` yields only the components of the
current compound and stops at the first combinator; advancing to the next
compound requires an explicit `next_sequence()` call. -/
structure Selector where
  compounds : List (List SelComp)
deriving DecidableEq, Repr

/-- The lightningcss rule tree as consumed by `prune_rules`: style rules with
a selector list, media/supports container rules with nested rules, and all
other rule kinds (keyframes, font-face, ...). -/
inductive CssRule where
  | style (selectors : List Selector) (body : String)
  | media (rules : List CssRule)
  | supports (rules : List CssRule)
  | other (body : String)
deriving Repr

/-- Model of `is_selector_used` (src/_legacy_v1/src/css.rs:147): the
`for component in selector.iter()` loop visits only the rightmost (subject)
compound, because `iter()` stops at the first combinator and the loop never
calls `next_sequence()`. Over those components it maintains `has_classes`
and `any_used` flags; it keeps the selector when no classes were seen,
otherwise keeps it iff some seen class is in the used set. -/
def is_selector_used (used : List String) (sel : Selector) : Bool :=
  let flags := (sel.compounds.headD []).foldl
    (fun fl comp =>
      match comp with
      | SelComp.classComp name => (true, fl.2 || used.contains name)
      | SelComp.otherComp _ => fl)
    (false, false)
  if !flags.1 then true else flags.2

/-- Model of `prune_rules` (src/_legacy_v1/src/css.rs:104): `retain_mut` over the rule
list, filtering style-rule selector lists and recursing into media/supports. -/
def prune_rules (used : List String) : List CssRule → List CssRule
  | [] => []
  | CssRule.style sels body :: rs =>
    let kept := sels.filter (fun s => is_selector_used used s)
    if kept.isEmpty then prune_rules used rs
    else CssRule.style kept body :: prune_rules used rs
  | CssRule.media inner :: rs =>
    let pruned := prune_rules used inner
    if pruned.isEmpty then prune_rules used rs
    else CssRule.media pruned :: prune_rules used rs
  | CssRule.supports inner :: rs =>
    let pruned := prune_rules used inner
    if pruned.isEmpty then prune_rules used rs
    else CssRule.supports pruned :: prune_rules used rs
  | CssRule.other body :: rs => CssRule.other body :: prune_rules used rs

/-- The class components of one compound. -/
def compound_classes (comp : List SelComp) : List String :=
  comp.filterMap (fun c =>
    match c with
    | SelComp.classComp n => some n
    | SelComp.otherComp _ => none)

/-- All class components of the whole selector, across every compound. -/
def selector_classes (sel : Selector) : List String :=
  compound_classes sel.compounds.flatten

/-- The class components the code actually inspects: those of the rightmost
(subject) compound, the only compound `selector.iter()` yields. -/
def subject_classes (sel : Selector) : List String :=
  compound_classes (sel.compounds.headD [])

/-- Spec §4.4 wording for keeping a selector: it has no class component at
all, or at least one of its class components is in the used set — read over
the whole selector. -/
def spec_selector_kept (used : List String) (sel : Selector) : Bool :=
  (selector_classes sel).isEmpty || (selector_classes sel).any used.contains

/-- Spec §4.4 wording of the recursive filter: filter style-rule selector
lists by `spec_selector_kept` and drop the rule when the list empties;
recurse into media/supports containers, dropping them only when they become
empty; always retain every other rule kind. -/
def spec_prune (used : List String) : List CssRule → List CssRule
  | [] => []
  | CssRule.style sels body :: rs =>
    let kept := sels.filter (fun s => spec_selector_kept used s)
    if kept.isEmpty then spec_prune used rs
    else CssRule.style kept body :: spec_prune used rs
  | CssRule.media inner :: rs =>
    let pruned := spec_prune used inner
    if pruned.isEmpty then spec_prune used rs
    else CssRule.media pruned :: spec_prune used rs
  | CssRule.supports inner :: rs =>
    let pruned := spec_prune used inner
    if pruned.isEmpty then spec_prune used rs
    else CssRule.supports pruned :: spec_prune used rs
  | CssRule.other body :: rs => CssRule.other body :: spec_prune used rs

/-- Amended wording for keeping a selector: only the rightmost (subject)
compound is inspected — keep when it has no class component, or when at
least one of its class components is in the used set. -/
def amended_selector_kept (used : List String) (sel : Selector) : Bool :=
  (subject_classes sel).isEmpty || (subject_classes sel).any used.contains

/-- The recursive filter of the amended claim: the same rule-tree walk as
the spec wording, but keeping selectors by the subject-compound predicate
`amended_selector_kept`. -/
def amended_prune (used : List String) : List CssRule → List CssRule
  | [] => []
  | CssRule.style sels body :: rs =>
    let kept := sels.filter (fun s => amended_selector_kept used s)
    if kept.isEmpty then amended_prune used rs
    else CssRule.style kept body :: amended_prune used rs
  | CssRule.media inner :: rs =>
    let pruned := amended_prune used inner
    if pruned.isEmpty then amended_prune used rs
    else CssRule.media pruned :: amended_prune used rs
  | CssRule.supports inner :: rs =>
    let pruned := amended_prune used inner
    if pruned.isEmpty then amended_prune used rs
    else CssRule.supports pruned :: amended_prune used rs
  | CssRule.other body :: rs => CssRule.other body :: amended_prune used rs

/-! ## IR data model (src/src/main.rs:12-148) -/

/-- Marker kinds (src/src/main.rs:125), serialized lowercase. -/
inductive MarkerKind where
  | text
  | attr
  | event
deriving DecidableEq, Repr

/-- A marker binding (src/src/main.rs:133). -/
structure MarkerBinding where
  index : Nat
  kind : MarkerKind
  selector : String
  attr : Option String
deriving DecidableEq, Repr

/-- An event binding (src/src/main.rs:143). -/
structure EventBinding where
  index : Nat
  event : String
  selector : String
deriving DecidableEq, Repr

/-- A hoisted state binding (src/src/main.rs:61). -/
structure CompilerStateBinding where
  key : String
  value : String
deriving DecidableEq, Repr

/-- A component script (src/src/main.rs:68). -/
structure CompilerComponentScript where
  hoist_id : String
  factory : String
  imports : List String
  code : String
deriving DecidableEq, Repr

/-- A component instance (src/src/main.rs:78); the Rust field `instance` is
named `instanceId` here because `instance` is a Lean keyword. -/
structure CompilerComponentInstance where
  instanceId : String
  hoist_id : String
  selector : String
deriving DecidableEq, Repr

/-- A signal descriptor (src/src/main.rs:86). -/
structure CompilerSignal where
  id : Nat
  kind : String
  state_index : Nat
deriving DecidableEq, Repr

/-- An expression binding (src/src/main.rs:94). -/
structure CompilerExpressionBinding where
  marker_index : Nat
  signal_index : Option Nat
  state_index : Option Nat
  component_instance : Option String
  component_binding : Option String
  literal : Option String
deriving DecidableEq, Repr

/-- Hoisted script fragments (src/src/main.rs:44). -/
structure CompilerHoisted where
  imports : List String
  declarations : List String
  functions : List String
  signals : List String
  state : List CompilerStateBinding
  code : List String
deriving DecidableEq, Repr

/-- The sealed compiler IR (src/src/main.rs:22).  The Rust `BTreeMap` for
`components_scripts` is modelled as an association list whose keys appear in
sorted order, which is how a `BTreeMap` iterates. -/
structure CompilerIr where
  ir_version : Nat
  html : String
  expressions : List String
  hoisted : CompilerHoisted
  components_scripts : List (String × CompilerComponentScript)
  component_instances : List CompilerComponentInstance
  signals : List CompilerSignal
  expression_bindings : List CompilerExpressionBinding
  marker_bindings : List MarkerBinding
  event_bindings : List EventBinding
deriving DecidableEq, Repr

/-- The stdin payload (src/src/main.rs:12). -/
structure BundlerInput where
  route : String
  file : String
  ir : CompilerIr
  router : Bool
deriving DecidableEq, Repr

/-! ## Binding derivation engine (src/src/main.rs:480-604) -/

/-- The regex name class `[A-Za-z0-9_-]`. -/
def isNameChar (c : Char) : Bool :=
  (65 ≤ c.toNat && c.toNat ≤ 90) || (97 ≤ c.toNat && c.toNat ≤ 122) ||
  (48 ≤ c.toNat && c.toNat ≤ 57) || c == '_' || c == '-'

/-- The single-quote character. -/
def squote : Char := Char.ofNat 39

/-- The bare-value class of the binding regex: not whitespace and not one of
the three characters greater-than, double quote, single quote. -/
def isBareChar (c : Char) : Bool :=
  !rustIsWhitespace c && c != '>' && c != '"' && c != squote

/-- Match of the binding regex (src/src/main.rs:489)
`data-zx-([A-Za-z0-9_-]+)=(?:"([^"]+)"|'([^']+)'|([^\s>"']+))` anchored at the
head of the character list: the literal `data-zx-`, a greedy nonempty name
run followed by `=`, then — via leftmost-first alternation with
backtracking — a double-quoted, single-quoted or bare nonempty value.
Returns attribute name, raw value, and the rest after the match. -/
def matchAt (cs : List Char) : Option (String × String × List Char) :=
  match cs with
  | 'd' :: 'a' :: 't' :: 'a' :: '-' :: 'z' :: 'x' :: '-' :: r1 =>
    let name := r1.takeWhile isNameChar
    if name.isEmpty then none
    else
      match r1.drop name.length with
      | '=' :: r3 =>
        match r3 with
        | '"' :: r4 =>
          let v := r4.takeWhile (fun c => c != '"')
          if v.isEmpty then none
          else
            match r4.drop v.length with
            | '"' :: rest => some (⟨name⟩, ⟨v⟩, rest)
            | _ => none
        | q :: r4 =>
          if q == squote then
            let v := r4.takeWhile (fun c => c != squote)
            if v.isEmpty then none
            else
              match r4.drop v.length with
              | q2 :: rest => if q2 == squote then some (⟨name⟩, ⟨v⟩, rest) else none
              | _ => none
          else
            let v := r3.takeWhile isBareChar
            if v.isEmpty then none
            else some (⟨name⟩, ⟨v⟩, r3.drop v.length)
        | [] => none
      | _ => none
  | _ => none

/-- All matches of the binding regex, leftmost first and non-overlapping, as
`captures_iter` yields them.  The fuel argument (the input length at the top
call) only bounds the recursion: every step consumes at least one character,
so the fuel never runs out before the input does. -/
def findAttrMatches : Nat → List Char → List (String × String)
  | 0, _ => []
  | fuel + 1, cs =>
    match matchAt cs with
    | some (name, value, rest) => (name, value) :: findAttrMatches fuel rest
    | none =>
      match cs with
      | [] => []
      | _ :: t => findAttrMatches fuel t

/-- The (attribute name, raw value) capture pairs of the binding regex over
the whole HTML. -/
def scanAttrs (html : String) : List (String × String) :=
  findAttrMatches html.data.length html.data

/-- Model of `parse_expression_index` (src/src/main.rs:570). -/
def parse_expression_index (raw : String) (expression_count : Nat) (context : String) :
    Except String Nat :=
  match parse_usize raw with
  | none => .error ("invalid expression index \x27" ++ raw ++ "\x27 in " ++ context)
  | some parsed =>
    if expression_count ≤ parsed then
      .error ("out-of-bounds expression index " ++ toString parsed ++ " in " ++ context ++
        "; expression count is " ++ toString expression_count)
    else .ok parsed

/-- Model of `insert_marker` (src/src/main.rs:584). -/
def insert_marker (slots : List (Option MarkerBinding)) (marker : MarkerBinding) :
    Except String (List (Option MarkerBinding)) :=
  let index := marker.index
  if slots.length ≤ index then
    .error ("marker index " ++ toString index ++ " out of bounds; marker slots length is " ++
      toString slots.length)
  else if (slots.getD index none).isSome then
    .error ("duplicate marker index " ++ toString index ++
      " detected while deriving binding tables")
  else .ok (slots.set index (some marker))

/-- The `Text` marker selector for index `i`. -/
def text_selector (i : Nat) : String := "[data-zx-e~=\"" ++ toString i ++ "\"]"

/-- The `Event` marker selector for event `ev` and index `i`. -/
def event_selector (ev : String) (i : Nat) : String :=
  "[data-zx-on-" ++ ev ++ "=\"" ++ toString i ++ "\"]"

/-- The `Attr` marker selector for attribute `name` and index `i`. -/
def attr_selector (name : String) (i : Nat) : String :=
  "[data-zx-" ++ name ++ "=\"" ++ toString i ++ "\"]"

/-- Rust `attr_name.strip_prefix("on-")`. -/
def strip_on (name : String) : Option String :=
  match name.data with
  | 'o' :: 'n' :: '-' :: rest => some ⟨rest⟩
  | _ => none

/-- Dispatch on one scanned attribute, mirroring the loop body of
`derive_binding_tables` (src/src/main.rs:492-554): `e` values are
whitespace-split into text-marker indices, `c` is skipped, `on-*` values give
an event marker plus an event-table entry, anything else an attr marker. -/
def process_attr (n : Nat) (st : List (Option MarkerBinding) × List EventBinding)
    (attr_name raw_value : String) :
    Except String (List (Option MarkerBinding) × List EventBinding) :=
  if attr_name = "e" then
    ((splitWs raw_value).foldlM
      (fun slots part => do
        let index ← parse_expression_index part n "data-zx-e"
        insert_marker slots ⟨index, MarkerKind.text, text_selector index, none⟩)
      st.1).map (fun slots => (slots, st.2))
  else if attr_name = "c" then .ok st
  else
    match strip_on attr_name with
    | some event_name => do
      let index ← parse_expression_index raw_value n "data-zx-on-*"
      let selector := event_selector event_name index
      let slots ← insert_marker st.1 ⟨index, MarkerKind.event, selector, none⟩
      .ok (slots, st.2 ++ [⟨index, event_name, selector⟩])
    | none => do
      let index ← parse_expression_index raw_value n "data-zx-*"
      let slots ← insert_marker st.1
        ⟨index, MarkerKind.attr, attr_selector attr_name index, some attr_name⟩
      .ok (slots, st.2)

/-- Final slot collection of `derive_binding_tables`
(src/src/main.rs:556-565): walk the slots in index order, failing at the
first unassigned index. -/
def collect_markers : List (Option MarkerBinding) → Nat → Except String (List MarkerBinding)
  | [], _ => .ok []
  | some m :: rest, i => (collect_markers rest (i + 1)).map (fun ms => m :: ms)
  | none :: _, i =>
    .error ("marker/expression mismatch: missing marker for expression index " ++ toString i)

/-- Model of `derive_binding_tables` (src/src/main.rs:480): with zero expressions
return empty tables immediately; otherwise scan the HTML, dispatch every
capture into the marker slots and the event table, and assemble the final
marker table. -/
def derive_binding_tables (ir : CompilerIr) :
    Except String (List MarkerBinding × List EventBinding) :=
  let expression_count := ir.expressions.length
  if expression_count = 0 then .ok ([], [])
  else do
    let st ← (scanAttrs ir.html).foldlM
      (fun st nv => process_attr expression_count st nv.1 nv.2)
      (List.replicate expression_count none, [])
    let markers ← collect_markers st.1 0
    .ok (markers, st.2)

/-! ## Spec-side description of the scan (spec §4.2) -/

/-- One index-assigning token of the scan: a whitespace-separated token of a
`data-zx-e` value, the value of a `data-zx-on-<event>`, or the value of a
generic `data-zx-<tag>`. -/
inductive ZxOp where
  | text (tok : String)
  | event (ev : String) (tok : String)
  | attr (name : String) (tok : String)
deriving DecidableEq, Repr

/-- The index token carried by an op. -/
def opToken : ZxOp → String
  | ZxOp.text t => t
  | ZxOp.event _ t => t
  | ZxOp.attr _ t => t

/-- Spec §4.2 dispatch of one scanned attribute into ops: `e` splits its
value on whitespace into text tokens, `c` is ignored, `on-<event>` yields one
event token, any other tag one attr token. -/
def ops_of_attr (name value : String) : List ZxOp :=
  if name = "e" then (splitWs value).map ZxOp.text
  else if name = "c" then []
  else
    match strip_on name with
    | some ev => [ZxOp.event ev value]
    | none => [ZxOp.attr name value]

/-- All index-assigning ops of an HTML document, in scan order. -/
def ops_of_html (html : String) : List ZxOp :=
  ((scanAttrs html).map (fun nv => ops_of_attr nv.1 nv.2)).flatten

/-- A token's expression index: its parse as a nonnegative integer when that
is below the expression count. -/
def token_index (n : Nat) (t : String) : Option Nat :=
  match parse_usize t with
  | some i => if i < n then some i else none
  | none => none

/-- The marker an op contributes at index `i`, per the spec §4.2 dispatch:
text markers select `[data-zx-e~="<index>"]`, event markers
`[data-zx-on-<event>="<index>"]`, attr markers `[data-zx-<tag>="<index>"]`
with `attr = <tag>`. -/
def op_marker : ZxOp → Nat → MarkerBinding
  | ZxOp.text _, i => ⟨i, MarkerKind.text, text_selector i, none⟩
  | ZxOp.event ev _, i => ⟨i, MarkerKind.event, event_selector ev i, none⟩
  | ZxOp.attr name _, i => ⟨i, MarkerKind.attr, attr_selector name i, some name⟩

/-- The event-table entry an op contributes, if any. -/
def op_event : ZxOp → Nat → Option EventBinding
  | ZxOp.event ev _, i => some ⟨i, ev, event_selector ev i⟩
  | _, _ => none

/-- The error-message context string of an op's index parse. -/
def opContext : ZxOp → String
  | ZxOp.text _ => "data-zx-e"
  | ZxOp.event _ _ => "data-zx-on-*"
  | ZxOp.attr _ _ => "data-zx-*"

/-- Processing of a single op, the common shape of the three dispatch arms of
`process_attr`. -/
def process_op (n : Nat) (st : List (Option MarkerBinding) × List EventBinding) (op : ZxOp) :
    Except String (List (Option MarkerBinding) × List EventBinding) := do
  let index ← parse_expression_index (opToken op) n (opContext op)
  let slots ← insert_marker st.1 (op_marker op index)
  .ok (slots, st.2 ++ (op_event op index).toList)

/-- The valid indices assigned by a list of ops, in order. -/
def op_indices (n : Nat) (ops : List ZxOp) : List Nat :=
  ops.filterMap (fun op => token_index n (opToken op))

/-- The markers contributed by a list of ops, in order. -/
def op_contribs (n : Nat) (ops : List ZxOp) : List MarkerBinding :=
  ops.filterMap (fun op => (token_index n (opToken op)).map (op_marker op))

/-- The event-table entries contributed by a list of ops, in order. -/
def op_events (n : Nat) (ops : List ZxOp) : List EventBinding :=
  ops.filterMap (fun op => (token_index n (opToken op)).bind (op_event op))

/-- Hypothesis of the bijection property (spec §8): every scanned token
parses to an in-bounds index, no index is assigned twice, and every
expression index is assigned. -/
def assigns_exactly_once (ir : CompilerIr) : Prop :=
  (∀ op ∈ ops_of_html ir.html, token_index ir.expressions.length (opToken op) ≠ none) ∧
  (op_indices ir.expressions.length (ops_of_html ir.html)).Nodup ∧
  (∀ i < ir.expressions.length, i ∈ op_indices ir.expressions.length (ops_of_html ir.html))

/-- The duplicate-marker error text of `insert_marker`. -/
def dup_msg (i : Nat) : String :=
  "duplicate marker index " ++ toString i ++ " detected while deriving binding tables"

/-- The missing-marker error text of `derive_binding_tables`. -/
def missing_msg (i : Nat) : String :=
  "marker/expression mismatch: missing marker for expression index " ++ toString i

deriving instance DecidableEq for Except

instance (ir : CompilerIr) : Decidable (assigns_exactly_once ir) := by
  unfold assigns_exactly_once
  infer_instance

/-! ## Eager payload validation (`validate_payload`, src/src/main.rs:290) -/

/-- Rust `route.starts_with('/')`. -/
def startsWithSlash (s : String) : Bool :=
  match s.data with
  | '/' :: _ => true
  | _ => false

/-- The signals loop of `validate_payload` (src/src/main.rs:327): first error
or none. -/
def check_signals (signals : List CompilerSignal) (stateLen : Nat) : Option String :=
  match signals with
  | [] => none
  | sig :: rest =>
    if sig.kind ≠ "signal" then
      some ("input.ir.signals[].kind must be \x27signal\x27, got \x27" ++ sig.kind ++ "\x27")
    else if stateLen ≤ sig.state_index then
      some ("input.ir.signals[" ++ toString sig.id ++ "].state_index out of bounds: " ++
        toString sig.state_index)
    else check_signals rest stateLen

/-- The expression-bindings loop of `validate_payload` (src/src/main.rs:341),
carrying the enumeration position for the error messages. -/
def check_expression_bindings (bindings : List CompilerExpressionBinding) (position : Nat)
    (exprLen stateLen signalsLen : Nat) : Option String :=
  match bindings with
  | [] => none
  | b :: rest =>
    if exprLen ≤ b.marker_index then
      some ("input.ir.expression_bindings[" ++ toString position ++
        "].marker_index out of bounds: " ++ toString b.marker_index)
    else
      match b.state_index with
      | some si =>
        if stateLen ≤ si then
          some ("input.ir.expression_bindings[" ++ toString position ++
            "].state_index out of bounds: " ++ toString si)
        else
          match b.signal_index with
          | some gi =>
            if signalsLen ≤ gi then
              some ("input.ir.expression_bindings[" ++ toString position ++
                "].signal_index out of bounds: " ++ toString gi)
            else check_expression_bindings rest (position + 1) exprLen stateLen signalsLen
          | none => check_expression_bindings rest (position + 1) exprLen stateLen signalsLen
      | none =>
        match b.signal_index with
        | some gi =>
          if signalsLen ≤ gi then
            some ("input.ir.expression_bindings[" ++ toString position ++
              "].signal_index out of bounds: " ++ toString gi)
          else check_expression_bindings rest (position + 1) exprLen stateLen signalsLen
        | none => check_expression_bindings rest (position + 1) exprLen stateLen signalsLen

/-- The components-scripts loop of `validate_payload` (src/src/main.rs:365). -/
def check_components_scripts (entries : List (String × CompilerComponentScript)) :
    Option String :=
  match entries with
  | [] => none
  | (hoist_id, script) :: rest =>
    if (rustTrim hoist_id).isEmpty then
      some "input.ir.components_scripts contains an empty hoist_id key"
    else if (rustTrim script.code).isEmpty then
      some ("input.ir.components_scripts[\x27" ++ hoist_id ++ "\x27].code must be non-empty")
    else if (rustTrim script.factory).isEmpty then
      some ("input.ir.components_scripts[\x27" ++ hoist_id ++ "\x27].factory must be non-empty")
    else if script.hoist_id ≠ hoist_id then
      some ("input.ir.components_scripts key \x27" ++ hoist_id ++ "\x27 mismatches hoist_id \x27" ++
        script.hoist_id ++ "\x27")
    else check_components_scripts rest

/-- Rust `BTreeMap::contains_key` on the association-list model. -/
def contains_key (m : List (String × CompilerComponentScript)) (k : String) : Bool :=
  m.any (fun kv => kv.1 == k)

/-- The component-instances loop of `validate_payload` (src/src/main.rs:388). -/
def check_component_instances (instances : List CompilerComponentInstance)
    (scripts : List (String × CompilerComponentScript)) : Option String :=
  match instances with
  | [] => none
  | inst :: rest =>
    if (rustTrim inst.instanceId).isEmpty then
      some "input.ir.component_instances[].instance must be non-empty"
    else if (rustTrim inst.selector).isEmpty then
      some "input.ir.component_instances[].selector must be non-empty"
    else if !contains_key scripts inst.hoist_id then
      some ("input.ir.component_instances references unknown hoist_id \x27" ++
        inst.hoist_id ++ "\x27")
    else check_component_instances rest scripts

/-- The marker-bindings bounds-and-duplicates loop of `validate_payload`
(src/src/main.rs:407), with the set of already-seen indices. -/
def check_marker_bindings (markers : List MarkerBinding) (exprLen : Nat) (seen : List Nat) :
    Option String :=
  match markers with
  | [] => none
  | mk :: rest =>
    if exprLen ≤ mk.index then
      some ("input.ir.marker_bindings index out of bounds: " ++ toString mk.index)
    else if seen.contains mk.index then
      some ("input.ir.marker_bindings contains duplicate index " ++ toString mk.index)
    else check_marker_bindings rest exprLen (mk.index :: seen)

/-- Model of `validate_payload` (src/src/main.rs:290): the eager validation pass run
before anything else of the pipeline. -/
def validate_payload (payload : BundlerInput) : Except String Unit :=
  if payload.ir.ir_version ≠ 1 then
    .error ("unsupported input.ir.ir_version " ++ toString payload.ir.ir_version ++
      " (expected 1)")
  else if (rustTrim payload.route).isEmpty then
    .error "input.route must be a non-empty string"
  else if !startsWithSlash payload.route then
    .error "input.route must start with \x27/\x27"
  else if (rustTrim payload.file).isEmpty then
    .error "input.file must be a non-empty string"
  else if (rustTrim payload.ir.html).isEmpty then
    .error "input.ir.html must be a non-empty string"
  else if !payload.ir.expression_bindings.isEmpty &&
      payload.ir.expression_bindings.length != payload.ir.expressions.length then
    .error ("input.ir.expression_bindings length (" ++
      toString payload.ir.expression_bindings.length ++
      ") must match input.ir.expressions length (" ++
      toString payload.ir.expressions.length ++ ")")
  else if !payload.ir.marker_bindings.isEmpty &&
      payload.ir.marker_bindings.length != payload.ir.expressions.length then
    .error ("input.ir.marker_bindings length (" ++
      toString payload.ir.marker_bindings.length ++
      ") must match input.ir.expressions length (" ++
      toString payload.ir.expressions.length ++ ")")
  else
    match check_signals payload.ir.signals payload.ir.hoisted.state.length with
    | some e => .error e
    | none =>
      match check_expression_bindings payload.ir.expression_bindings 0
          payload.ir.expressions.length payload.ir.hoisted.state.length
          payload.ir.signals.length with
      | some e => .error e
      | none =>
        match check_components_scripts payload.ir.components_scripts with
        | some e => .error e
        | none =>
          match check_component_instances payload.ir.component_instances
              payload.ir.components_scripts with
          | some e => .error e
          | none =>
            if !payload.ir.marker_bindings.isEmpty then
              match check_marker_bindings payload.ir.marker_bindings
                  payload.ir.expressions.length [] with
              | some e => .error e
              | none => .ok ()
            else .ok ()

/-! ## JSON serialization (serde_json, as used by the code generator) -/

/-- serde_json escaping of one character inside a JSON string: quote and
backslash escaped, control characters below 0x20 via the short escapes or
`\u00XX` with lowercase hex, everything else verbatim. -/
def json_escape_char (c : Char) : List Char :=
  if c = '"' then ['\\', '"']
  else if c = '\\' then ['\\', '\\']
  else if c.toNat = 0x08 then ['\\', 'b']
  else if c.toNat = 0x09 then ['\\', 't']
  else if c.toNat = 0x0A then ['\\', 'n']
  else if c.toNat = 0x0C then ['\\', 'f']
  else if c.toNat = 0x0D then ['\\', 'r']
  else if c.toNat < 0x20 then
    ['\\', 'u', '0', '0', hexDigit (c.toNat / 16), hexDigit (c.toNat % 16)]
  else [c]

/-- serde_json serialization of a string value. -/
def json_string (s : String) : String :=
  "\"" ++ ⟨(s.data.map json_escape_char).flatten⟩ ++ "\""

/-- serde_json serialization of an optional integer field value. -/
def json_opt_nat : Option Nat → String
  | none => "null"
  | some n => toString n

/-- serde_json serialization of an optional string field value. -/
def json_opt_string : Option String → String
  | none => "null"
  | some s => json_string s

/-- serde_json array text from already-serialized items. -/
def json_array (items : List String) : String :=
  "[" ++ String.intercalate "," items ++ "]"

/-- serde_json text of a `MarkerKind` (`rename_all = "lowercase"`). -/
def json_marker_kind : MarkerKind → String
  | MarkerKind.text => "\"text\""
  | MarkerKind.attr => "\"attr\""
  | MarkerKind.event => "\"event\""

/-- serde_json text of a `MarkerBinding`; the `attr` field is omitted when
`None` (`skip_serializing_if`). -/
def json_marker (m : MarkerBinding) : String :=
  "\x7b\"index\":" ++ toString m.index ++ ",\"kind\":" ++ json_marker_kind m.kind ++
    ",\"selector\":" ++ json_string m.selector ++
    (match m.attr with
     | none => ""
     | some a => ",\"attr\":" ++ json_string a) ++ "\x7d"

/-- serde_json text of an `EventBinding`. -/
def json_event (e : EventBinding) : String :=
  "\x7b\"index\":" ++ toString e.index ++ ",\"event\":" ++ json_string e.event ++
    ",\"selector\":" ++ json_string e.selector ++ "\x7d"

/-- serde_json text of a `CompilerSignal`. -/
def json_signal (s : CompilerSignal) : String :=
  "\x7b\"id\":" ++ toString s.id ++ ",\"kind\":" ++ json_string s.kind ++
    ",\"state_index\":" ++ toString s.state_index ++ "\x7d"

/-- serde_json text of a `CompilerExpressionBinding` (every field serialized,
`None` as `null`). -/
def json_expression_binding (b : CompilerExpressionBinding) : String :=
  "\x7b\"marker_index\":" ++ toString b.marker_index ++
    ",\"signal_index\":" ++ json_opt_nat b.signal_index ++
    ",\"state_index\":" ++ json_opt_nat b.state_index ++
    ",\"component_instance\":" ++ json_opt_string b.component_instance ++
    ",\"component_binding\":" ++ json_opt_string b.component_binding ++
    ",\"literal\":" ++ json_opt_string b.literal ++ "\x7d"

/-! ## Virtual entry generation (src/src/utils.rs) -/

/-- The sealed `CompilerOutput` of the external `zenith_compiler` crate, as
consumed by `generate_virtual_entry`: only its `html` and `expressions`
fields are read by this repository's code. -/
structure CompilerOutput where
  html : String
  expressions : List String
deriving DecidableEq, Repr

/-- Model of `escape_js_template_literal` (src/src/utils.rs:101) on character lists:
escape backslash, backtick and the two-character sequence dollar-brace. -/
def escTLList : List Char → List Char
  | [] => []
  | [c] =>
    if c = '\\' then ['\\', '\\']
    else if c = Char.ofNat 96 then ['\\', Char.ofNat 96]
    else [c]
  | c :: c2 :: rest =>
    if c = '\\' then '\\' :: '\\' :: escTLList (c2 :: rest)
    else if c = Char.ofNat 96 then '\\' :: Char.ofNat 96 :: escTLList (c2 :: rest)
    else if c = '$' && c2 = Char.ofNat 123 then
      '\\' :: '$' :: Char.ofNat 123 :: escTLList rest
    else c :: escTLList (c2 :: rest)

/-- Model of `escape_js_template_literal` (src/src/utils.rs:101). -/
def escape_js_template_literal (s : String) : String := ⟨escTLList s.data⟩

/-- Model of `escape_js_string` (src/src/utils.rs:129): escaping for a double-quoted
JS string literal. -/
def escape_js_string (s : String) : String :=
  ⟨(s.data.map (fun c =>
    if c = '"' then ['\\', '"']
    else if c = '\\' then ['\\', '\\']
    else if c = '\n' then ['\\', 'n']
    else if c = '\r' then ['\\', 'r']
    else if c = '\t' then ['\\', 't']
    else [c])).flatten⟩

/-- Model of `generate_virtual_entry` (src/src/utils.rs:154): the virtual entry module
preamble exporting the HTML template, expression table and contract. -/
def generate_virtual_entry (output : CompilerOutput) : String :=
  let html_escaped := escape_js_template_literal output.html
  let expr_array := String.intercalate ", "
    (output.expressions.map (fun e => "\"" ++ escape_js_string e ++ "\""))
  "export const __zenith_html = `" ++ html_escaped ++ "`;\n" ++
    "export const __zenith_expr = [" ++ expr_array ++ "];\n" ++
    "export const __zenith_contract = \"v0\";\n" ++
    "export default function __zenith_page() \x7b\n" ++
    "  return \x7b html: __zenith_html, expressions: __zenith_expr, contract: __zenith_contract \x7d;\n" ++
    "\x7d"

/-! ## Page entry generation (src/src/main.rs:694-860) -/

/-- ASCII alphanumeric test, as in Rust `char::is_ascii_alphanumeric`. -/
def isAsciiAlphanum (c : Char) : Bool :=
  (48 ≤ c.toNat && c.toNat ≤ 57) || (65 ≤ c.toNat && c.toNat ≤ 90) ||
  (97 ≤ c.toNat && c.toNat ≤ 122)

/-- Model of `sanitize_asset_token` (src/src/main.rs:687). -/
def sanitize_asset_token (input : String) : String :=
  ⟨input.data.map (fun ch =>
    if isAsciiAlphanum ch || ch = '_' || ch = '-' then ch else '_')⟩

/-- Model of `Path::file_name` for the forward-slash asset paths built by this code:
the last component that is not empty or `.`, unless it is `..`. -/
def path_file_name (s : String) : Option String :=
  match ((s.splitOn "/").filter (fun p => p ≠ "" && p ≠ ".")).getLast? with
  | none => none
  | some last => if last = ".." then none else some last

/-- The hoisted free-form code section of the page entry
(src/src/main.rs:720-727): each non-empty trimmed block surrounded by
newlines. -/
def hoisted_code_section (blocks : List String) : String :=
  String.join (blocks.map (fun block =>
    let trimmed := rustTrim block
    if trimmed.isEmpty then "" else "\n" ++ trimmed ++ "\n"))

/-- Model of `generate_state_table_js` (src/src/main.rs:782); the Rust `Result` never
carries an error. -/
def generate_state_table_js (bindings : List CompilerStateBinding) : String :=
  if bindings.isEmpty then "const __zenith_state_values = Object.freeze([]);\n"
  else
    "const __zenith_state_values = Object.freeze([\n" ++
      String.join (bindings.map (fun b => "  " ++ rustTrim b.value ++ ",\n")) ++
      "]);\n"

/-- The fallback expression-binding records of
`fallback_expression_bindings` (src/src/main.rs:797): expression `i` wrapped
as a literal binding with `marker_index = i`. -/
def fallback_expression_bindings_list (ir : CompilerIr) : List CompilerExpressionBinding :=
  ir.expressions.enum.map (fun iv => ⟨iv.1, none, none, none, none, some iv.2⟩)

/-- Model of `fallback_expression_bindings` (src/src/main.rs:797), serialized. -/
def fallback_expression_bindings (ir : CompilerIr) : String :=
  json_array ((fallback_expression_bindings_list ir).map json_expression_binding)

/-- Model of `generate_component_bootstrap_js` (src/src/main.rs:815): component
imports (one per asset, in `BTreeMap` key order) and the component table
(one `{instance,selector,hoist_id,create}` tuple per instance, `[]` when
there are no instances). -/
def generate_component_bootstrap_js (ir : CompilerIr)
    (component_assets : List (String × String)) : Except String (String × String) :=
  if ir.component_instances.isEmpty then .ok ("", "[]")
  else do
    let withNames ← component_assets.mapM (fun kv =>
      match path_file_name kv.2 with
      | none => Except.error ("invalid component asset path \x27" ++ kv.2 ++ "\x27")
      | some file_name => Except.ok (kv.1, file_name))
    let imports := String.join (withNames.map (fun kn =>
      "import __zenith_component_" ++ sanitize_asset_token kn.1 ++ " from \x27./" ++
        kn.2 ++ "\x27;\n"))
    let aliases := component_assets.map (fun kv =>
      (kv.1, "__zenith_component_" ++ sanitize_asset_token kv.1))
    let entries ← ir.component_instances.mapM (fun inst =>
      match List.lookup inst.hoist_id aliases with
      | none => Except.error ("missing component asset mapping for hoist_id \x27" ++
          inst.hoist_id ++ "\x27")
      | some aliasName => Except.ok ("\x7binstance:" ++ json_string inst.instanceId ++
          ",selector:" ++ json_string inst.selector ++
          ",hoist_id:" ++ json_string inst.hoist_id ++
          ",create:" ++ aliasName ++ "\x7d"))
    .ok (imports, "[" ++ String.intercalate "," entries ++ "]")

/-- The fixed `hydrate({...})` call closing the page entry module. -/
def hydrate_call_text : String :=
  "hydrate(\x7b\n" ++ "  root: document,\n" ++ "  ir_version: __zenith_ir_version,\n" ++
    "  expressions: __zenith_expression_bindings,\n" ++ "  markers: __zenith_markers,\n" ++
    "  events: __zenith_events,\n" ++ "  state_values: __zenith_state_values,\n" ++
    "  signals: __zenith_signals,\n" ++ "  components: __zenith_components\n" ++ "\x7d);\n"

/-- Model of `generate_entry_js` (src/src/main.rs:694): the page entry module text,
assembled by successive appends exactly as the Rust `push_str` sequence. -/
def generate_entry_js (ir : CompilerIr) (runtime_import_spec : String)
    (markers : List MarkerBinding) (events : List EventBinding)
    (component_assets : List (String × String)) : Except String String :=
  let compiler_output : CompilerOutput := ⟨ir.html, ir.expressions⟩
  let markers_json := json_array (markers.map json_marker)
  let events_json := json_array (events.map json_event)
  let js := generate_virtual_entry compiler_output
  let js := js ++ hoisted_code_section ir.hoisted.code
  let js := js ++ "\nconst __zenith_markers = " ++ markers_json ++ ";\n"
  let js := js ++ "const __zenith_events = " ++ events_json ++ ";\n"
  let signals_json := json_array (ir.signals.map json_signal)
  let expression_bindings_json :=
    if ir.expression_bindings.isEmpty then fallback_expression_bindings ir
    else json_array (ir.expression_bindings.map json_expression_binding)
  let js := js ++ generate_state_table_js ir.hoisted.state
  let js := js ++ "const __zenith_ir_version = " ++ toString ir.ir_version ++ ";\n"
  let js := js ++ "const __zenith_signals = Object.freeze(" ++ signals_json ++ ");\n"
  let js := js ++ "const __zenith_expression_bindings = Object.freeze(" ++
    expression_bindings_json ++ ");\n"
  match generate_component_bootstrap_js ir component_assets with
  | .error e => .error e
  | .ok (component_imports, components_table) =>
    let js := js ++ (if component_imports.isEmpty then "" else component_imports)
    let js := js ++ "import \x7b hydrate, signal, state, zeneffect \x7d from \x27" ++
      runtime_import_spec ++ "\x27;\n"
    let js := js ++ "const __zenith_components = " ++ components_table ++ ";\n"
    .ok (js ++ hydrate_call_text)

/-! ## Named sections of the page entry module -/

/-- Section (preamble): the virtual entry exports. -/
def section_preamble (ir : CompilerIr) : String :=
  generate_virtual_entry ⟨ir.html, ir.expressions⟩

/-- Section: marker table constant. -/
def section_markers (markers : List MarkerBinding) : String :=
  "\nconst __zenith_markers = " ++ json_array (markers.map json_marker) ++ ";\n"

/-- Section: event table constant. -/
def section_events (events : List EventBinding) : String :=
  "const __zenith_events = " ++ json_array (events.map json_event) ++ ";\n"

/-- Section: `ir_version` constant. -/
def section_ir_version (ir : CompilerIr) : String :=
  "const __zenith_ir_version = " ++ toString ir.ir_version ++ ";\n"

/-- Section: signal descriptor table. -/
def section_signals (ir : CompilerIr) : String :=
  "const __zenith_signals = Object.freeze(" ++
    json_array (ir.signals.map json_signal) ++ ");\n"

/-- Section: expression-binding table, verbatim when the IR supplied one and
the literal-wrapping fallback otherwise. -/
def section_expression_bindings (ir : CompilerIr) : String :=
  "const __zenith_expression_bindings = Object.freeze(" ++
    (if ir.expression_bindings.isEmpty then fallback_expression_bindings ir
     else json_array (ir.expression_bindings.map json_expression_binding)) ++ ");\n"

/-- Section: runtime import. -/
def section_runtime_import (runtime_import_spec : String) : String :=
  "import \x7b hydrate, signal, state, zeneffect \x7d from \x27" ++
    runtime_import_spec ++ "\x27;\n"

/-- Section: component table constant. -/
def section_components_table (components_table : String) : String :=
  "const __zenith_components = " ++ components_table ++ ";\n"

/-- The page entry module as the claim describes it — hoisted blocks first,
then marker/event tables, the `ir_version` constant, the signal table, the
expression-binding table, the state-value table, the component bootstrap, the
runtime import, and the `hydrate` call — with no leading preamble. -/
def generate_entry_js_claim_order (ir : CompilerIr) (runtime_import_spec : String)
    (markers : List MarkerBinding) (events : List EventBinding)
    (component_assets : List (String × String)) : Except String String :=
  match generate_component_bootstrap_js ir component_assets with
  | .error e => .error e
  | .ok (component_imports, components_table) =>
    .ok (hoisted_code_section ir.hoisted.code ++
      section_markers markers ++
      section_events events ++
      section_ir_version ir ++
      section_signals ir ++
      section_expression_bindings ir ++
      generate_state_table_js ir.hoisted.state ++
      component_imports ++
      section_components_table components_table ++
      section_runtime_import runtime_import_spec ++
      hydrate_call_text)

/-! ## `.zen` compilation (src/src/plugin/zenith_loader.rs:243) -/

/-- Model of `compile_zen_source` (src/src/plugin/zenith_loader.rs:243), with the
sealed external compiler `compile_structured` of the `zenith_compiler` crate
as a parameter: CRLF-normalize the source, compile it, and generate the
virtual entry module from the compiled output. -/
def compile_zen_source (compile_structured : String → CompilerOutput)
    (source : String) : String × CompilerOutput :=
  let s := lfNormalize source
  (generate_virtual_entry (compile_structured s), compile_structured s)

/-- Modelled from the spec: an instance of the sealed external
`compile_structured` (its implementation is outside this repository) whose
HTML skeleton carries the source text, as the spec's data model describes
(`html` is the page's markup produced from the template source). -/
def compile_structured_model (source : String) : CompilerOutput := ⟨source, []⟩

/-- Whether a string contains the three-character sequence CR CR LF, the
pattern on which one CRLF-normalization pass leaves a new CRLF behind. -/
def hasCrCrLf (s : String) : Bool := containsSubList ['\r', '\r', '\n'] s.data

/-! ## BTreeMap iteration order (for the determinism claim) -/

/-- Key order on map entries: compare the `BTreeMap` keys byte-wise. -/
def pairLe (a b : String × String) : Prop := charListLe a.1.data b.1.data = true

instance : DecidableRel pairLe := fun a b => decEq _ _

instance : IsTotal (String × String) pairLe := by
  constructor
  intro a b
  have key : ∀ x y : List Char, charListLe x y = true ∨ charListLe y x = true := by
    intro x
    induction x with
    | nil => intro y; exact Or.inl rfl
    | cons c cs ih =>
      intro y
      cases y with
      | nil => exact Or.inr rfl
      | cons d ds =>
        by_cases h1 : c.toNat < d.toNat
        · exact Or.inl (by simp [charListLe, h1])
        · by_cases h2 : d.toNat < c.toNat
          · exact Or.inr (by simp [charListLe, h2])
          · rcases ih ds with h | h
            · exact Or.inl (by simp [charListLe, h1, h2, h])
            · exact Or.inr (by simp [charListLe, h1, h2, h])
  exact key a.1.data b.1.data

instance : IsTrans (String × String) pairLe := by
  constructor
  intro a b c
  have key : ∀ x y z : List Char, charListLe x y = true → charListLe y z = true →
      charListLe x z = true := by
    intro x
    induction x with
    | nil => intro y z _ _; rfl
    | cons cx xs ih =>
      intro y z h1 h2
      cases y with
      | nil => exact absurd h1 (by simp [charListLe])
      | cons cy ys =>
        cases z with
        | nil => exact absurd h2 (by simp [charListLe])
        | cons cz zs =>
          simp only [charListLe] at h1 h2 ⊢
          split_ifs at h1 h2 ⊢ <;> first
          | rfl
          | (exact ih ys zs h1 h2)
          | omega
  exact key a.1.data b.1.data c.1.data

/-- The iteration sequence of a `BTreeMap` built from entries with distinct
keys: the entries in ascending key order. -/
def btree_iteration (l : List (String × String)) : List (String × String) :=
  List.insertionSort pairLe l

/-! # Theorems -/

theorem wrap_i32_mem_range (z : Int) : -2 ^ 31 ≤ wrap_i32 z ∧ wrap_i32 z < 2 ^ 31 := by
  unfold wrap_i32
  omega

theorem hashStep_toU32 (a : Int) (b : Nat) :
    hashStep ((a % 2 ^ 32).toNat) b = ((specHashStep a b) % 2 ^ 32).toNat := by
  unfold hashStep specHashStep wrapping_add32 wrapping_sub32 wrapping_shl5 wrap_i32 U32MOD
  omega

theorem hashFold_toU32 (bytes : List Nat) (a : Int) :
    bytes.foldl hashStep ((a % 2 ^ 32).toNat) = ((bytes.foldl specHashStep a) % 2 ^ 32).toNat := by
  induction bytes generalizing a with
  | nil => rfl
  | cons b rest ih =>
    simp only [List.foldl_cons, hashStep_toU32]
    exact ih (specHashStep a b)

theorem wrapping_abs32_toU32 (a : Int) (h₁ : -2 ^ 31 ≤ a) (h₂ : a < 2 ^ 31) :
    wrapping_abs32 ((a % 2 ^ 32).toNat) = (wrap_i32 |a| % 2 ^ 32).toNat := by
  unfold wrapping_abs32 wrap_i32 U32MOD
  rcases abs_cases a with ⟨he, _⟩ | ⟨he, _⟩ <;> rw [he] <;> split_ifs <;> omega

theorem specHashFold_range (bytes : List Nat) (a : Int)
    (h₁ : -2 ^ 31 ≤ a) (h₂ : a < 2 ^ 31) :
    -2 ^ 31 ≤ bytes.foldl specHashStep a ∧ bytes.foldl specHashStep a < 2 ^ 31 := by
  induction bytes generalizing a with
  | nil => exact ⟨h₁, h₂⟩
  | cons b rest ih =>
    simp only [List.foldl_cons]
    exact ih (specHashStep a b) (wrap_i32_mem_range _).1 (wrap_i32_mem_range _).2

/-- C5: `stable_hash_8` implements the reference hash of the spec exactly:
for every input string the wrapping `acc = acc*31 + byte` accumulation over a
signed 32-bit accumulator started at 0, followed by the wrapping absolute
value reinterpreted as `u32` and 8-digit lowercase hex formatting, yields the
same string; the empty input hashes to `"00000000"`; and identical inputs
always produce identical outputs. -/
theorem stable_hash_8_matches_reference :
    (∀ s : String, stable_hash_8 s = spec_hash8 s) ∧
    stable_hash_8 "" = "00000000" ∧
    (∀ s t : String, s = t → stable_hash_8 s = stable_hash_8 t) := by
  refine ⟨fun s => ?_, by decide, fun s t h => by rw [h]⟩
  unfold stable_hash_8 spec_hash8
  have h0 : (0 : Nat) = (((0 : Int) % 2 ^ 32).toNat) := by decide
  rw [h0, hashFold_toU32]
  have hr := specHashFold_range (strBytes s) 0 (by decide) (by decide)
  rw [wrapping_abs32_toU32 _ hr.1 hr.2]

/-! ## Substring machinery -/

theorem isPre_iff (p l : List Char) : isPre p l = true ↔ ∃ t, l = p ++ t := by
  induction p generalizing l with
  | nil => simp [isPre]
  | cons a as ih =>
    cases l with
    | nil => simp [isPre]
    | cons b bs =>
      simp only [isPre, Bool.and_eq_true, beq_iff_eq, ih, List.cons_append, List.cons.injEq]
      constructor
      · rintro ⟨rfl, t, rfl⟩; exact ⟨t, rfl, rfl⟩
      · rintro ⟨t, rfl, rfl⟩; exact ⟨rfl, t, rfl⟩

theorem containsSubList_iff (pat l : List Char) :
    containsSubList pat l = true ↔ ∃ pre suf, l = pre ++ (pat ++ suf) := by
  induction l with
  | nil =>
    constructor
    · intro h
      rcases (isPre_iff pat []).mp h with ⟨t, ht⟩
      exact ⟨[], t, by simpa using ht⟩
    · rintro ⟨pre, suf, h⟩
      have h1 := List.append_eq_nil.mp h.symm
      have h2 : pat = [] := (List.append_eq_nil.mp h1.2).1
      show isPre pat [] = true
      rw [h2]; rfl
  | cons c t ih =>
    show (isPre pat (c :: t) || containsSubList pat t) = true ↔ _
    rw [Bool.or_eq_true, isPre_iff, ih]
    constructor
    · rintro (⟨s, hs⟩ | ⟨pre, suf, hps⟩)
      · exact ⟨[], s, by simpa using hs⟩
      · exact ⟨c :: pre, suf, by simp [hps]⟩
    · rintro ⟨pre, suf, hps⟩
      cases pre with
      | nil => exact Or.inl ⟨suf, by simpa using hps⟩
      | cons d ds =>
        rw [List.cons_append, List.cons.injEq] at hps
        exact Or.inr ⟨ds, suf, hps.2⟩

theorem replacen_first (pat rep l : List Char) (hne : pat ≠ [])
    (hc : containsSubList pat l = true) :
    ∃ pre suf, l = pre ++ (pat ++ suf) ∧
      (∀ pre₂ suf₂, l = pre₂ ++ (pat ++ suf₂) → pre.length ≤ pre₂.length) ∧
      replacenList pat rep l = pre ++ (rep ++ suf) := by
  induction l with
  | nil =>
    rcases (containsSubList_iff pat []).mp hc with ⟨pre, suf, h⟩
    have h1 := List.append_eq_nil.mp h.symm
    exact absurd (List.append_eq_nil.mp h1.2).1 hne
  | cons c t ih =>
    by_cases hp : isPre pat (c :: t) = true
    · rcases (isPre_iff _ _).mp hp with ⟨s, hs⟩
      refine ⟨[], s, by simpa using hs, fun _ _ _ => Nat.zero_le _, ?_⟩
      simp only [replacenList, if_pos hp]
      rw [hs, List.drop_left]
      simp
    · have hct : containsSubList pat t = true := by
        have : (isPre pat (c :: t) || containsSubList pat t) = true := hc
        simpa [hp] using this
      rcases ih hct with ⟨pre, suf, heq, hmin, hrep⟩
      refine ⟨c :: pre, suf, by simp [heq], ?_, ?_⟩
      · rintro pre₂ suf₂ h₂
        cases pre₂ with
        | nil => exact absurd ((isPre_iff _ _).mpr ⟨suf₂, by simpa using h₂⟩) hp
        | cons d ds =>
          rw [List.cons_append, List.cons.injEq] at h₂
          simpa using Nat.succ_le_succ (hmin ds suf₂ h₂.2)
      · simp only [replacenList, if_neg hp, hrep]
        simp

theorem containsSubList_of_mid (pat a b : List Char) :
    containsSubList pat (a ++ (pat ++ b)) = true :=
  (containsSubList_iff pat _).mpr ⟨a, b, rfl⟩

/-! ## C9: HTML script injection -/

theorem data_script_tag (src attr : String) :
    (script_tag src attr).data =
      "<script type=\"module\" src=\"".data ++
        (src.data ++ ("\" " ++ attr ++ "></script>").data) := by
  simp [script_tag, String.data_append]

/-- C9: `inject_script_once` returns the HTML unchanged when the exact `src`
already occurs in it; otherwise it inserts the script tag immediately before
the first `</body>` when one is present, and appends the tag at the end
otherwise; and injecting the same `src` twice equals injecting it once. -/
theorem inject_script_once_contract (html src attr : String) :
    (rust_contains html src = true → inject_script_once html src attr = html) ∧
    (rust_contains html src = false → rust_contains html "</body>" = true →
      ∃ pre suf, html.data = pre ++ ("</body>".data ++ suf) ∧
        (∀ pre₂ suf₂, html.data = pre₂ ++ ("</body>".data ++ suf₂) →
          pre.length ≤ pre₂.length) ∧
        (inject_script_once html src attr).data =
          pre ++ ((script_tag src attr).data ++ ("</body>".data ++ suf))) ∧
    (rust_contains html src = false → rust_contains html "</body>" = false →
      inject_script_once html src attr = html ++ script_tag src attr) ∧
    inject_script_once (inject_script_once html src attr) src attr =
      inject_script_once html src attr := by
  have hbody : ∀ (h : rust_contains html src = false)
      (hb : rust_contains html "</body>" = true),
      ∃ pre suf, html.data = pre ++ ("</body>".data ++ suf) ∧
        (∀ pre₂ suf₂, html.data = pre₂ ++ ("</body>".data ++ suf₂) →
          pre.length ≤ pre₂.length) ∧
        (inject_script_once html src attr).data =
          pre ++ ((script_tag src attr).data ++ ("</body>".data ++ suf)) := by
    intro h hb
    rcases replacen_first "</body>".data ((script_tag src attr ++ "</body>").data) html.data
        (by decide) hb with ⟨pre, suf, heq, hmin, hrep⟩
    refine ⟨pre, suf, heq, hmin, ?_⟩
    have hres : inject_script_once html src attr =
        rust_replacen1 html "</body>" (script_tag src attr ++ "</body>") := by
      simp [inject_script_once, h, hb]
    rw [hres]
    show replacenList "</body>".data ((script_tag src attr ++ "</body>").data) html.data = _
    rw [hrep, String.data_append]
    simp [List.append_assoc]
  refine ⟨fun h => by simp [inject_script_once, h], hbody, fun h hb => by
    simp [inject_script_once, h, hb], ?_⟩
  have hskip : ∀ h2 : String, rust_contains h2 src = true →
      inject_script_once h2 src attr = h2 := fun h2 hh => by
    simp [inject_script_once, hh]
  by_cases h : rust_contains html src = true
  · rw [hskip html h]
    exact hskip html h
  · replace h : rust_contains html src = false := by simpa using h
    by_cases hb : rust_contains html "</body>" = true
    · rcases hbody h hb with ⟨pre, suf, _, _, hres⟩
      have hcont : rust_contains (inject_script_once html src attr) src = true := by
        rw [rust_contains, hres, data_script_tag]
        have := containsSubList_of_mid src.data
          (pre ++ "<script type=\"module\" src=\"".data)
          (("\" " ++ attr ++ "></script>").data ++ ("</body>".data ++ suf))
        simpa [List.append_assoc] using this
      exact hskip _ hcont
    · replace hb : rust_contains html "</body>" = false := by simpa using hb
      have hres : inject_script_once html src attr = html ++ script_tag src attr := by
        simp [inject_script_once, h, hb]
      have hcont : rust_contains (inject_script_once html src attr) src = true := by
        rw [rust_contains, hres, String.data_append, data_script_tag]
        have := containsSubList_of_mid src.data
          (html.data ++ "<script type=\"module\" src=\"".data)
          ("\" " ++ attr ++ "></script>").data
        simpa [List.append_assoc] using this
      exact hskip _ hcont

/-- Witness for C9 at concrete inputs: appending at the end of body-less HTML. -/
theorem inject_script_once_contract_witness :
    inject_script_once "<div>x</div>" "/assets/a.js" "data-zx-page" =
      "<div>x</div><script type=\"module\" src=\"/assets/a.js\" data-zx-page></script>" :=
  ((inject_script_once_contract "<div>x</div>" "/assets/a.js" "data-zx-page").2.2.1
    (by decide) (by decide)).trans (by decide)

/-! ## C8: router manifest upsert -/

theorem mem_map_path_upsertRoutes (l : List RouterRouteEntry) (e : RouterRouteEntry)
    (y : String) (hy : y ∈ (upsertRoutes l e).map RouterRouteEntry.path) :
    y ∈ l.map RouterRouteEntry.path ∨ y = e.path := by
  induction l with
  | nil => simpa [upsertRoutes] using hy
  | cons x xs ih =>
    by_cases hx : x.path = e.path
    · simp only [upsertRoutes, if_pos hx, List.map_cons, List.mem_cons] at hy
      rcases hy with h | h
      · exact Or.inr h
      · exact Or.inl (by simp [h])
    · simp only [upsertRoutes, if_neg hx, List.map_cons, List.mem_cons] at hy
      rcases hy with h | h
      · exact Or.inl (by simp [h])
      · rcases ih h with h' | h'
        · exact Or.inl (by simp only [List.map_cons, List.mem_cons]; exact Or.inr h')
        · exact Or.inr h'

theorem nodup_map_path_upsertRoutes (l : List RouterRouteEntry) (e : RouterRouteEntry)
    (h : (l.map RouterRouteEntry.path).Nodup) :
    ((upsertRoutes l e).map RouterRouteEntry.path).Nodup := by
  induction l with
  | nil => simp [upsertRoutes]
  | cons x xs ih =>
    simp only [List.map_cons, List.nodup_cons] at h
    by_cases hx : x.path = e.path
    · simp only [upsertRoutes, if_pos hx, List.map_cons, List.nodup_cons]
      exact ⟨hx ▸ h.1, h.2⟩
    · simp only [upsertRoutes, if_neg hx, List.map_cons, List.nodup_cons]
      refine ⟨fun hmem => ?_, ih h.2⟩
      rcases mem_map_path_upsertRoutes xs e x.path hmem with h' | h'
      · exact h.1 h'
      · exact hx h'

/-- C8: the router-manifest upsert preserves at-most-one-entry-per-path, the
result is always sorted by path, a missing manifest file is treated as the
empty manifest, and the `/b`, `/a`, `/a`-v2 upsert sequence yields exactly the
two entries `/a` (with html `v2`) and `/b` in that order. -/
theorem upsert_router_manifest_contract (m : RouterManifest) (e : RouterRouteEntry)
    (h : (m.routes.map RouterRouteEntry.path).Nodup) :
    ((upsert_router_manifest (some m) e).routes.map RouterRouteEntry.path).Nodup ∧
    ((upsert_router_manifest (some m) e).routes.Sorted pathLe) ∧
    (∀ e₂, upsert_router_manifest none e₂ = upsert_router_manifest (some ⟨[]⟩) e₂) ∧
    (upsert_router_manifest
        (some (upsert_router_manifest
          (some (upsert_router_manifest none ⟨"/b", "b/index.html", "hb", []⟩))
          ⟨"/a", "a/index.html", "ha", []⟩))
        ⟨"/a", "a/index.html", "v2", []⟩).routes =
      [⟨"/a", "a/index.html", "v2", []⟩, ⟨"/b", "b/index.html", "hb", []⟩] := by
  refine ⟨?_, List.sorted_insertionSort pathLe _, fun _ => rfl, by decide⟩
  have hperm := List.perm_insertionSort pathLe (upsertRoutes m.routes e)
  exact ((hperm.map RouterRouteEntry.path).nodup_iff).mpr
    (nodup_map_path_upsertRoutes m.routes e h)

/-- Witness for C8 at a concrete manifest. -/
theorem upsert_router_manifest_contract_witness :
    ((upsert_router_manifest (some ⟨[⟨"/x", "o", "h", []⟩]⟩) ⟨"/a", "o2", "h2", []⟩).routes.map
      RouterRouteEntry.path).Nodup ∧
    (upsert_router_manifest (some ⟨[⟨"/x", "o", "h", []⟩]⟩) ⟨"/a", "o2", "h2", []⟩).routes.Sorted
      pathLe := by
  have h := upsert_router_manifest_contract ⟨[⟨"/x", "o", "h", []⟩]⟩ ⟨"/a", "o2", "h2", []⟩
    (by decide)
  exact ⟨h.1, h.2.1⟩

/-! ## C7: CSS pruning -/

theorem selUsedFold (used : List String) (comp : List SelComp) (fl : Bool × Bool) :
    comp.foldl
      (fun fl c =>
        match c with
        | SelComp.classComp name => (true, fl.2 || used.contains name)
        | SelComp.otherComp _ => fl) fl =
      (fl.1 || !(compound_classes comp).isEmpty,
        fl.2 || (compound_classes comp).any used.contains) := by
  induction comp generalizing fl with
  | nil => simp [compound_classes]
  | cons c rest ih =>
    cases c with
    | classComp n =>
      simp only [List.foldl_cons, ih]
      simp [compound_classes, Bool.or_assoc]
    | otherComp t =>
      simp only [List.foldl_cons, ih]
      simp [compound_classes]

theorem is_selector_used_eq_amended (used : List String) (sel : Selector) :
    is_selector_used used sel = amended_selector_kept used sel := by
  unfold is_selector_used amended_selector_kept subject_classes
  rw [selUsedFold]
  cases h : (compound_classes (sel.compounds.headD [])).isEmpty <;> simp [h]

theorem prune_rules_eq_amended (used : List String) :
    ∀ rules : List CssRule, prune_rules used rules = amended_prune used rules
  | [] => by simp [prune_rules, amended_prune]
  | CssRule.style sels body :: rs => by
    have hf : sels.filter (fun s => is_selector_used used s) =
        sels.filter (fun s => amended_selector_kept used s) := by
      apply List.filter_congr
      intro x _
      rw [is_selector_used_eq_amended]
    simp only [prune_rules, amended_prune, hf, prune_rules_eq_amended used rs]
  | CssRule.media inner :: rs => by
    simp only [prune_rules, amended_prune, prune_rules_eq_amended used inner,
      prune_rules_eq_amended used rs]
  | CssRule.supports inner :: rs => by
    simp only [prune_rules, amended_prune, prune_rules_eq_amended used inner,
      prune_rules_eq_amended used rs]
  | CssRule.other body :: rs => by
    simp only [prune_rules, amended_prune, prune_rules_eq_amended used rs]

/-- Counterexample to C7: the code inspects only the rightmost (subject)
compound of a selector. For the descendant selector `.used .unused`
(matching order: compound `[.unused]` first, then `[.used]`) with used-set
`[used]`, the code drops the selector and hence the whole rule, while the
spec clause — some class of the selector is in the used set — keeps it.
Conversely for `.unused span` with an empty used-set the code keeps the
selector (the subject compound `span` carries no class) while the spec
clause drops it. -/
theorem is_selector_used_counterexample :
    is_selector_used ["used"]
        ⟨[[SelComp.classComp "unused"], [SelComp.classComp "used"]]⟩ = false ∧
    spec_selector_kept ["used"]
        ⟨[[SelComp.classComp "unused"], [SelComp.classComp "used"]]⟩ = true ∧
    prune_rules ["used"]
        [CssRule.style [⟨[[SelComp.classComp "unused"], [SelComp.classComp "used"]]⟩]
          "color:red"] = [] ∧
    spec_prune ["used"]
        [CssRule.style [⟨[[SelComp.classComp "unused"], [SelComp.classComp "used"]]⟩]
          "color:red"] =
      [CssRule.style [⟨[[SelComp.classComp "unused"], [SelComp.classComp "used"]]⟩]
        "color:red"] ∧
    is_selector_used []
        ⟨[[SelComp.otherComp "span"], [SelComp.classComp "unused"]]⟩ = true ∧
    spec_selector_kept []
        ⟨[[SelComp.otherComp "span"], [SelComp.classComp "unused"]]⟩ = false := by
  refine ⟨?_, ?_, ?_, ?_, ?_, ?_⟩ <;>
    simp [is_selector_used, spec_selector_kept, prune_rules, spec_prune,
      selector_classes, compound_classes]

/-- C7 (amended): the code keeps a style-rule selector iff its rightmost
(subject) compound — the only part of the selector that `selector.iter()`
yields — has no class component, or one of its class components is in the
used set; pruning equals the amended recursive filter (style rules dropped
exactly when their filtered selector list empties, media/supports recursed
into and dropped only when they become empty, every other rule kind always
retained); and the three literal scenarios of spec §8, all of which are
single-compound selectors, hold on the rule tree. -/
theorem prune_rules_contract :
    (∀ (used : List String) (sel : Selector),
      is_selector_used used sel = true ↔
        (subject_classes sel = [] ∨ ∃ c ∈ subject_classes sel, used.contains c = true)) ∧
    (∀ (used : List String) (rules : List CssRule),
      prune_rules used rules = amended_prune used rules) ∧
    prune_rules ["foo"]
        [CssRule.style [⟨[[SelComp.classComp "foo"]]⟩] "color:red",
         CssRule.style [⟨[[SelComp.classComp "bar"]]⟩] "color:blue"] =
      [CssRule.style [⟨[[SelComp.classComp "foo"]]⟩] "color:red"] ∧
    prune_rules []
        [CssRule.style [⟨[[SelComp.otherComp "body"]]⟩] "margin:0"] =
      [CssRule.style [⟨[[SelComp.otherComp "body"]]⟩] "margin:0"] ∧
    prune_rules ["foo"]
        [CssRule.style [⟨[[SelComp.classComp "foo", SelComp.classComp "bar"]]⟩] "color:red"] =
      [CssRule.style [⟨[[SelComp.classComp "foo", SelComp.classComp "bar"]]⟩] "color:red"] := by
  refine ⟨fun used sel => ?_, prune_rules_eq_amended, by simp [prune_rules, is_selector_used],
    by simp [prune_rules, is_selector_used], by simp [prune_rules, is_selector_used]⟩
  rw [is_selector_used_eq_amended]
  unfold amended_selector_kept
  simp [List.isEmpty_iff, List.any_eq_true]

/-! ## Except and list helpers for the derivation proofs -/

theorem exc_bind_ok {ε β γ} (a : β) (f : β → Except ε γ) :
    (Except.ok a >>= f) = f a := rfl

theorem exc_bind_error {ε β γ} (e : ε) (f : β → Except ε γ) :
    ((Except.error e : Except ε β) >>= f) = Except.error e := rfl

theorem exc_map_ok {ε β γ} (a : β) (f : β → γ) :
    (Except.ok a : Except ε β).map f = Except.ok (f a) := rfl

theorem exc_map_error {ε β γ} (e : ε) (f : β → γ) :
    (Except.error e : Except ε β).map f = Except.error e := rfl

theorem getD_set_self {α : Type} (l : List α) (i : Nat) (a d : α) (h : i < l.length) :
    (l.set i a).getD i d = a := by
  induction l generalizing i with
  | nil => simp at h
  | cons x xs ih =>
    cases i with
    | zero => rfl
    | succ j =>
      simp only [List.set_cons_succ, List.getD_cons_succ]
      exact ih j (by simpa using h)

theorem getD_set_ne {α : Type} (l : List α) (i j : Nat) (a d : α) (h : i ≠ j) :
    (l.set i a).getD j d = l.getD j d := by
  induction l generalizing i j with
  | nil => simp [List.set]
  | cons x xs ih =>
    cases i with
    | zero =>
      cases j with
      | zero => exact absurd rfl h
      | succ j' => rfl
    | succ i' =>
      cases j with
      | zero => rfl
      | succ j' =>
        simp only [List.set_cons_succ, List.getD_cons_succ]
        exact ih i' j' (fun hc => h (by rw [hc]))

theorem getD_replicate {α : Type} (n j : Nat) (d a : α) :
    ((List.replicate n a).getD j d) = if j < n then a else d := by
  induction n generalizing j with
  | zero => simp
  | succ m ih =>
    cases j with
    | zero => simp [List.replicate]
    | succ j' =>
      have hiff : j' + 1 < m + 1 ↔ j' < m := by omega
      simp only [List.replicate, List.getD_cons_succ, ih, hiff]

/-! ## Index-token bridge lemmas -/

theorem parse_index_of_token (n : Nat) (t ctx : String) (i : Nat)
    (h : token_index n t = some i) :
    parse_expression_index t n ctx = .ok i := by
  cases hp : parse_usize t with
  | none => simp [token_index, hp] at h
  | some p =>
    simp only [token_index, hp] at h
    simp only [parse_expression_index, hp]
    split at h
    · rename_i hlt
      simp only [Option.some.injEq] at h
      subst h
      rw [if_neg (by omega)]
    · simp at h

theorem parse_index_err_of_token (n : Nat) (t ctx : String)
    (h : token_index n t = none) :
    ∃ msg, parse_expression_index t n ctx = .error msg := by
  cases hp : parse_usize t with
  | none =>
    simp only [parse_expression_index, hp]
    exact ⟨_, rfl⟩
  | some p =>
    simp only [token_index, hp] at h
    split at h
    · simp at h
    · rename_i hge
      simp only [parse_expression_index, hp]
      rw [if_pos (by omega)]
      exact ⟨_, rfl⟩

theorem token_of_parse_index (n : Nat) (t ctx : String) (i : Nat)
    (h : parse_expression_index t n ctx = .ok i) :
    token_index n t = some i := by
  cases hp : parse_usize t with
  | none => simp [parse_expression_index, hp] at h
  | some p =>
    simp only [parse_expression_index, hp] at h
    split at h
    · simp at h
    · rename_i hge
      simp only [Except.ok.injEq] at h
      subst h
      simp only [token_index, hp]
      rw [if_pos (by omega)]

theorem token_index_lt (n : Nat) (t : String) (i : Nat) (h : token_index n t = some i) :
    i < n := by
  cases hp : parse_usize t with
  | none => simp [token_index, hp] at h
  | some p =>
    simp only [token_index, hp] at h
    split at h
    · rename_i hlt
      simp only [Option.some.injEq] at h
      omega
    · simp at h

/-! ## The attr-level fold equals the op-level fold -/

theorem process_op_parse_err (n : Nat) (st : List (Option MarkerBinding) × List EventBinding)
    (op : ZxOp) {e : String}
    (hp : parse_expression_index (opToken op) n (opContext op) = .error e) :
    process_op n st op = .error e := by
  unfold process_op
  rw [hp, exc_bind_error]

theorem process_op_ok_steps (n : Nat) (st : List (Option MarkerBinding) × List EventBinding)
    (op : ZxOp) (i : Nat)
    (hp : parse_expression_index (opToken op) n (opContext op) = .ok i) :
    process_op n st op =
      (insert_marker st.1 (op_marker op i) >>= fun slots =>
        .ok (slots, st.2 ++ (op_event op i).toList)) := by
  unfold process_op
  rw [hp, exc_bind_ok]

theorem process_attr_e_arm (n : Nat) (toks : List String)
    (slots : List (Option MarkerBinding)) (ev : List EventBinding) :
    ((toks.foldlM
      (fun slots part => do
        let index ← parse_expression_index part n "data-zx-e"
        insert_marker slots ⟨index, MarkerKind.text, text_selector index, none⟩)
      slots).map (fun slots => (slots, ev))) =
      (toks.map ZxOp.text).foldlM (process_op n) (slots, ev) := by
  induction toks generalizing slots with
  | nil => rfl
  | cons t ts ih =>
    simp only [List.foldlM_cons, List.map_cons]
    cases hp : parse_expression_index t n "data-zx-e" with
    | error e =>
      simp only [hp, process_op_parse_err n (slots, ev) (ZxOp.text t) hp, exc_bind_error,
        exc_map_error]
    | ok i =>
      simp only [hp, exc_bind_ok, process_op_ok_steps n (slots, ev) (ZxOp.text t) i hp,
        op_marker, op_event, Option.toList, List.append_nil]
      cases hi : insert_marker slots ⟨i, MarkerKind.text, text_selector i, none⟩ with
      | error e => simp only [hi, exc_bind_error, exc_map_error]
      | ok slots2 =>
        simp only [hi, exc_bind_ok]
        exact ih slots2

theorem process_attr_eq_ops (n : Nat) (st : List (Option MarkerBinding) × List EventBinding)
    (name value : String) :
    process_attr n st name value = (ops_of_attr name value).foldlM (process_op n) st := by
  unfold process_attr ops_of_attr
  by_cases he : name = "e"
  · simp only [if_pos he]
    exact process_attr_e_arm n (splitWs value) st.1 st.2
  · simp only [if_neg he]
    by_cases hc : name = "c"
    · simp only [if_pos hc, List.foldlM_nil]
      rfl
    · simp only [if_neg hc]
      cases ho : strip_on name with
      | some evn =>
        simp only [List.foldlM_cons, List.foldlM_nil]
        cases hp : parse_expression_index value n "data-zx-on-*" with
        | error e =>
          simp only [hp, exc_bind_error,
            process_op_parse_err n st (ZxOp.event evn value) hp]
        | ok i =>
          simp only [hp, exc_bind_ok,
            process_op_ok_steps n st (ZxOp.event evn value) i hp, op_marker, op_event,
            Option.toList]
          cases hi : insert_marker st.1 ⟨i, MarkerKind.event, event_selector evn i, none⟩ with
          | error e => simp only [hi, exc_bind_error]
          | ok slots2 =>
            simp only [hi, exc_bind_ok]
            rfl
      | none =>
        simp only [List.foldlM_cons, List.foldlM_nil]
        cases hp : parse_expression_index value n "data-zx-*" with
        | error e =>
          simp only [hp, exc_bind_error,
            process_op_parse_err n st (ZxOp.attr name value) hp]
        | ok i =>
          simp only [hp, exc_bind_ok,
            process_op_ok_steps n st (ZxOp.attr name value) i hp, op_marker, op_event,
            Option.toList, List.append_nil]
          cases hi : insert_marker st.1
              ⟨i, MarkerKind.attr, attr_selector name i, some name⟩ with
          | error e => simp only [hi, exc_bind_error]
          | ok slots2 =>
            simp only [hi, exc_bind_ok]
            rfl

theorem attrs_fold_eq_ops (n : Nat) (attrs : List (String × String)) :
    ∀ st, attrs.foldlM (fun st nv => process_attr n st nv.1 nv.2) st =
      ((attrs.map (fun nv => ops_of_attr nv.1 nv.2)).flatten).foldlM (process_op n) st := by
  induction attrs with
  | nil => intro st; rfl
  | cons nv rest ih =>
    intro st
    simp only [List.foldlM_cons, List.map_cons, List.flatten_cons, List.foldlM_append]
    rw [process_attr_eq_ops n st nv.1 nv.2]
    cases h : (ops_of_attr nv.1 nv.2).foldlM (process_op n) st with
    | error e => rw [exc_bind_error, exc_bind_error]
    | ok st' =>
      rw [exc_bind_ok, exc_bind_ok]
      exact ih st'

theorem derive_eq_ops_fold (ir : CompilerIr) (h : ir.expressions.length ≠ 0) :
    derive_binding_tables ir =
      ((ops_of_html ir.html).foldlM (process_op ir.expressions.length)
        (List.replicate ir.expressions.length none, []) >>= fun st =>
       collect_markers st.1 0 >>= fun markers =>
       .ok (markers, st.2)) := by
  unfold derive_binding_tables
  rw [if_neg h, attrs_fold_eq_ops]
  rfl

/-! ## Characterization of the op fold -/

theorem op_marker_index (op : ZxOp) (i : Nat) : (op_marker op i).index = i := by
  cases op <;> rfl

theorem token_index_zero (t : String) : token_index 0 t = none := by
  unfold token_index
  cases parse_usize t with
  | none => rfl
  | some p => simp

theorem op_events_zero (ops : List ZxOp) : op_events 0 ops = [] := by
  induction ops with
  | nil => rfl
  | cons op rest ih =>
    simpa [op_events, List.filterMap_cons, token_index_zero] using ih

theorem find_contribs_isSome (n : Nat) (ops : List ZxOp) (j : Nat) :
    ((op_contribs n ops).find? (fun m => m.index == j)).isSome ↔ j ∈ op_indices n ops := by
  induction ops with
  | nil => simp [op_contribs, op_indices]
  | cons op rest ih =>
    cases ht : token_index n (opToken op) with
    | none =>
      have h1 : op_contribs n (op :: rest) = op_contribs n rest := by
        simp only [op_contribs, List.filterMap_cons, ht, Option.map_none']
      have h2 : op_indices n (op :: rest) = op_indices n rest := by
        simp only [op_indices, List.filterMap_cons, ht]
      rw [h1, h2]
      exact ih
    | some i =>
      have h1 : op_contribs n (op :: rest) = op_marker op i :: op_contribs n rest := by
        simp only [op_contribs, List.filterMap_cons, ht, Option.map_some']
      have h2 : op_indices n (op :: rest) = i :: op_indices n rest := by
        simp only [op_indices, List.filterMap_cons, ht]
      rw [h1, h2]
      by_cases hij : i = j
      · subst hij
        rw [List.find?_cons_of_pos _ (by simp [op_marker_index])]
        simp
      · rw [List.find?_cons_of_neg _ (by simp [op_marker_index, hij]), ih]
        constructor
        · exact fun h => List.mem_cons_of_mem _ h
        · intro h
          rcases List.mem_cons.mp h with he | hm
          · exact absurd he.symm hij
          · exact hm

theorem processOps_ok_of_valid_nodup (n : Nat) (ops : List ZxOp) :
    ∀ (slots : List (Option MarkerBinding)) (ev : List EventBinding),
    slots.length = n →
    (∀ op ∈ ops, token_index n (opToken op) ≠ none) →
    (op_indices n ops).Nodup →
    (∀ j, (slots.getD j none).isSome → j ∉ op_indices n ops) →
    ∃ slots2, ops.foldlM (process_op n) (slots, ev) = .ok (slots2, ev ++ op_events n ops) ∧
      slots2.length = n ∧
      ∀ j, j < n →
        slots2.getD j none =
          (match (op_contribs n ops).find? (fun m => m.index == j) with
           | some m => some m
           | none => slots.getD j none) := by
  induction ops with
  | nil =>
    intro slots ev hlen _ _ _
    refine ⟨slots, by simp [op_events, List.foldlM_nil]; rfl, hlen, ?_⟩
    intro j _
    simp [op_contribs]
  | cons op rest ih =>
    intro slots ev hlen hvalid hnodup hdisj
    cases ht : token_index n (opToken op) with
    | none => exact absurd ht (hvalid op (List.mem_cons_self _ _))
    | some i =>
      have hi_lt : i < n := token_index_lt n _ i ht
      have hp := parse_index_of_token n (opToken op) (opContext op) i ht
      have hidx : op_indices n (op :: rest) = i :: op_indices n rest := by
        simp [op_indices, List.filterMap_cons, ht]
      have hmem_i : i ∈ op_indices n (op :: rest) := by
        rw [hidx]; exact List.mem_cons_self _ _
      have hempty : slots.getD i none = none := by
        cases hcase : slots.getD i none with
        | none => rfl
        | some m => exact absurd hmem_i (hdisj i (by rw [hcase]; rfl))
      have hins : insert_marker slots (op_marker op i) =
          .ok (slots.set i (some (op_marker op i))) := by
        unfold insert_marker
        rw [op_marker_index, if_neg (by omega), hempty]
        simp
      have hstep : process_op n (slots, ev) op =
          .ok (slots.set i (some (op_marker op i)), ev ++ (op_event op i).toList) := by
        rw [process_op_ok_steps n (slots, ev) op i hp]
        rw [hins, exc_bind_ok]
      rw [hidx] at hnodup
      have hnotin : i ∉ op_indices n rest := (List.nodup_cons.mp hnodup).1
      have hnodup2 := (List.nodup_cons.mp hnodup).2
      have hdisj2 : ∀ j, ((slots.set i (some (op_marker op i))).getD j none).isSome →
          j ∉ op_indices n rest := by
        intro j hjs
        by_cases hji : i = j
        · subst hji; exact hnotin
        · rw [getD_set_ne slots i j _ none hji] at hjs
          have h2 := hdisj j hjs
          rw [hidx] at h2
          exact fun hmm => h2 (List.mem_cons_of_mem _ hmm)
      obtain ⟨slots2, hfold, hlen2, hchar⟩ := ih (slots.set i (some (op_marker op i)))
        (ev ++ (op_event op i).toList) (by simpa using hlen)
        (fun o ho => hvalid o (List.mem_cons_of_mem _ ho)) hnodup2 hdisj2
      refine ⟨slots2, ?_, hlen2, ?_⟩
      · rw [List.foldlM_cons, hstep, exc_bind_ok, hfold]
        have hev : op_events n (op :: rest) = (op_event op i).toList ++ op_events n rest := by
          cases hoe : op_event op i <;>
            simp [op_events, List.filterMap_cons, ht, hoe, Option.toList]
        rw [hev, List.append_assoc]
      · intro j hj
        have hcontribs : op_contribs n (op :: rest) =
            op_marker op i :: op_contribs n rest := by
          simp [op_contribs, List.filterMap_cons, ht]
        rw [hcontribs]
        by_cases hji : i = j
        · subst hji
          rw [List.find?_cons_of_pos _ (by simp [op_marker_index])]
          rw [hchar i hj]
          have hfind : (op_contribs n rest).find? (fun m => m.index == i) = none := by
            cases hfc : (op_contribs n rest).find? (fun m => m.index == i) with
            | none => rfl
            | some m =>
              exact absurd ((find_contribs_isSome n rest i).mp (by rw [hfc]; rfl)) hnotin
          rw [hfind]
          show (slots.set i (some (op_marker op i))).getD i none = some (op_marker op i)
          exact getD_set_self slots i (some (op_marker op i)) none (by omega)
        · rw [List.find?_cons_of_neg _ (by simp [op_marker_index, hji])]
          rw [hchar j hj]
          cases hfc : (op_contribs n rest).find? (fun m => m.index == j) with
          | some m => rfl
          | none =>
            show (slots.set i (some (op_marker op i))).getD j none = slots.getD j none
            exact getD_set_ne slots i j (some (op_marker op i)) none hji

theorem valid_of_processOps_ok (n : Nat) (ops : List ZxOp) :
    ∀ slots ev res, ops.foldlM (process_op n) (slots, ev) = .ok res →
      ∀ op ∈ ops, token_index n (opToken op) ≠ none := by
  induction ops with
  | nil => intro _ _ _ _ op h; simp at h
  | cons op0 rest ih =>
    intro slots ev res hok op hop
    rw [List.foldlM_cons] at hok
    cases ht : token_index n (opToken op0) with
    | some i =>
      rcases List.mem_cons.mp hop with rfl | hmem
      · simp [ht]
      · have hp := parse_index_of_token n _ (opContext op0) i ht
        rw [process_op_ok_steps n (slots, ev) op0 i hp] at hok
        cases hi : insert_marker slots (op_marker op0 i) with
        | error e =>
          rw [hi, exc_bind_error, exc_bind_error] at hok
          exact absurd hok (by simp)
        | ok slots2 =>
          rw [hi, exc_bind_ok, exc_bind_ok] at hok
          exact ih _ _ _ hok op hmem
    | none =>
      obtain ⟨msg, hmsg⟩ := parse_index_err_of_token n _ (opContext op0) ht
      rw [process_op_parse_err n (slots, ev) op0 hmsg, exc_bind_error] at hok
      exact absurd hok (by simp)

theorem nodup_of_processOps_ok (n : Nat) (ops : List ZxOp) :
    ∀ slots ev res, slots.length = n →
      ops.foldlM (process_op n) (slots, ev) = .ok res →
      (op_indices n ops).Nodup ∧
      (∀ j, (slots.getD j none).isSome → j ∉ op_indices n ops) := by
  induction ops with
  | nil =>
    intro slots ev res _ _
    exact ⟨by simp [op_indices], fun j _ => by simp [op_indices]⟩
  | cons op rest ih =>
    intro slots ev res hlen hok
    rw [List.foldlM_cons] at hok
    cases ht : token_index n (opToken op) with
    | none =>
      obtain ⟨msg, hmsg⟩ := parse_index_err_of_token n _ (opContext op) ht
      rw [process_op_parse_err n (slots, ev) op hmsg, exc_bind_error] at hok
      exact absurd hok (by simp)
    | some i =>
      have hp := parse_index_of_token n _ (opContext op) i ht
      rw [process_op_ok_steps n (slots, ev) op i hp] at hok
      cases hi : insert_marker slots (op_marker op i) with
      | error e =>
        rw [hi, exc_bind_error, exc_bind_error] at hok
        exact absurd hok (by simp)
      | ok slots2 =>
        rw [hi, exc_bind_ok, exc_bind_ok] at hok
        have hins := hi
        unfold insert_marker at hins
        rw [op_marker_index] at hins
        by_cases hoob : slots.length ≤ i
        · rw [if_pos hoob] at hins
          exact absurd hins (by simp)
        · rw [if_neg hoob] at hins
          by_cases hs : (slots.getD i none).isSome
          · rw [if_pos hs] at hins
            exact absurd hins (by simp)
          · rw [if_neg hs] at hins
            simp only [Except.ok.injEq] at hins
            subst hins
            obtain ⟨hnodup2, hocc2⟩ := ih _ _ _ (by simpa using hlen) hok
            have hidx : op_indices n (op :: rest) = i :: op_indices n rest := by
              simp [op_indices, List.filterMap_cons, ht]
            rw [hidx]
            constructor
            · rw [List.nodup_cons]
              refine ⟨?_, hnodup2⟩
              apply hocc2
              rw [getD_set_self slots i _ none (by omega)]
              rfl
            · intro j hj
              have hji : j ≠ i := fun h => by subst h; exact hs hj
              rw [List.mem_cons]
              push_neg
              refine ⟨hji, ?_⟩
              apply hocc2
              rw [getD_set_ne slots i j _ none (fun h => hji h.symm)]
              exact hj

theorem processOps_dup (n : Nat) (ops : List ZxOp) :
    ∀ slots ev, slots.length = n →
      (∀ op ∈ ops, token_index n (opToken op) ≠ none) →
      (¬ (op_indices n ops).Nodup ∨
        ∃ j, (slots.getD j none).isSome ∧ j ∈ op_indices n ops) →
      ∃ i, ops.foldlM (process_op n) (slots, ev) = .error (dup_msg i) := by
  induction ops with
  | nil =>
    intro slots ev _ _ hbad
    rcases hbad with h | ⟨j, _, hj⟩
    · exact absurd (by simp [op_indices] : (op_indices n []).Nodup) h
    · simp [op_indices] at hj
  | cons op rest ih =>
    intro slots ev hlen hvalid hbad
    cases ht : token_index n (opToken op) with
    | none => exact absurd ht (hvalid op (List.mem_cons_self _ _))
    | some i =>
      have hi_lt := token_index_lt n _ i ht
      have hp := parse_index_of_token n _ (opContext op) i ht
      have hidx : op_indices n (op :: rest) = i :: op_indices n rest := by
        simp [op_indices, List.filterMap_cons, ht]
      rw [List.foldlM_cons, process_op_ok_steps n (slots, ev) op i hp]
      by_cases hs : (slots.getD i none).isSome
      · have hins : insert_marker slots (op_marker op i) = .error (dup_msg i) := by
          unfold insert_marker
          rw [op_marker_index, if_neg (by omega), if_pos hs]
          rfl
        rw [hins, exc_bind_error, exc_bind_error]
        exact ⟨i, rfl⟩
      · have hins : insert_marker slots (op_marker op i) =
            .ok (slots.set i (some (op_marker op i))) := by
          unfold insert_marker
          rw [op_marker_index, if_neg (by omega), if_neg hs]
        rw [hins, exc_bind_ok, exc_bind_ok]
        apply ih _ _ (by simpa using hlen) (fun o ho => hvalid o (List.mem_cons_of_mem _ ho))
        rw [hidx] at hbad
        rcases hbad with hnd | ⟨j, hjs, hjmem⟩
        · rw [List.nodup_cons] at hnd
          push_neg at hnd
          by_cases hmem : i ∈ op_indices n rest
          · right
            refine ⟨i, ?_, hmem⟩
            rw [getD_set_self slots i _ none (by omega)]
            rfl
          · left
            exact hnd hmem
        · rcases List.mem_cons.mp hjmem with rfl | hjr
          · exact absurd hjs hs
          · right
            refine ⟨j, ?_, hjr⟩
            have hji : i ≠ j := fun h => by subst h; exact hs hjs
            rw [getD_set_ne slots i j _ none hji]
            exact hjs

/-! ## Characterization of the final slot collection -/

theorem collect_markers_ok (slots : List (Option MarkerBinding)) :
    ∀ k, (∀ j, j < slots.length → (slots.getD j none).isSome) →
      ∃ ms, collect_markers slots k = .ok ms ∧ ms.length = slots.length ∧
        ∀ j (hj : j < ms.length), some (ms.get ⟨j, hj⟩) = slots.getD j none := by
  induction slots with
  | nil => exact fun k _ => ⟨[], rfl, rfl, fun j hj => by simp at hj⟩
  | cons o rest ih =>
    intro k hall
    cases o with
    | none =>
      have h0 := hall 0 (by simp)
      simp at h0
    | some m =>
      obtain ⟨ms, hok, hlen, hget⟩ := ih (k + 1)
        (fun j hj => by simpa [List.getD_cons_succ] using hall (j + 1) (by simpa using hj))
      refine ⟨m :: ms, ?_, by simp [hlen], ?_⟩
      · show (collect_markers rest (k + 1)).map (fun ms => m :: ms) = .ok (m :: ms)
        rw [hok, exc_map_ok]
      · intro j hj
        cases j with
        | zero => rfl
        | succ j2 =>
          simp only [List.getD_cons_succ]
          exact hget j2 (by simpa using hj)

theorem collect_markers_missing (slots : List (Option MarkerBinding)) :
    ∀ k, (∃ j, j < slots.length ∧ slots.getD j none = none) →
      ∃ m, m < slots.length ∧ slots.getD m none = none ∧
        collect_markers slots k = .error (missing_msg (k + m)) := by
  induction slots with
  | nil =>
    rintro k ⟨j, hj, _⟩
    simp at hj
  | cons o rest ih =>
    intro k hex
    cases o with
    | none => exact ⟨0, by simp, rfl, rfl⟩
    | some m0 =>
      have hex2 : ∃ j, j < rest.length ∧ rest.getD j none = none := by
        obtain ⟨j, hj, hnone⟩ := hex
        cases j with
        | zero => simp at hnone
        | succ j2 =>
          exact ⟨j2, by simpa using hj, by simpa [List.getD_cons_succ] using hnone⟩
      obtain ⟨m, hm, hnone, herr⟩ := ih (k + 1) hex2
      refine ⟨m + 1, by simpa using hm, by simpa [List.getD_cons_succ] using hnone, ?_⟩
      show (collect_markers rest (k + 1)).map (fun ms => m0 :: ms) = _
      rw [herr, exc_map_error]
      have harith : k + 1 + m = k + (m + 1) := by omega
      rw [harith]

/-! ## C1, C2, C10: binding derivation -/

/-- C1: when the HTML assigns exactly one `data-zx` marker to each expression
index (every scanned token parses in bounds, no index twice, every index
covered), `derive_binding_tables` succeeds with exactly N markers whose index
values are `0..N` in order (a duplicate-free permutation), each marker being
the contribution of its unique originating token per the dispatch rules
(`data-zx-e` values whitespace-split into Text markers with selector
`[data-zx-e~="i"]`, `data-zx-on-<event>` an Event marker plus event-table
entry with selector `[data-zx-on-<event>="i"]`, `data-zx-c` ignored, any
other tag an Attr marker with `attr = <tag>` and selector
`[data-zx-<tag>="i"]`), and the event table lists the event contributions in
scan order. -/
theorem derive_binding_tables_bijection (ir : CompilerIr)
    (h : assigns_exactly_once ir) :
    ∃ markers events,
      derive_binding_tables ir = .ok (markers, events) ∧
      markers.length = ir.expressions.length ∧
      markers.map MarkerBinding.index = List.range ir.expressions.length ∧
      (∀ i (hi : i < markers.length), (markers.get ⟨i, hi⟩).index = i) ∧
      (∀ i (hi : i < markers.length),
        some (markers.get ⟨i, hi⟩) =
          (op_contribs ir.expressions.length (ops_of_html ir.html)).find?
            (fun m => m.index == i)) ∧
      events = op_events ir.expressions.length (ops_of_html ir.html) := by
  obtain ⟨hvalid, hnodup, hall⟩ := h
  by_cases hn : ir.expressions.length = 0
  · refine ⟨[], [], ?_, by simp [hn], by simp [hn], fun i hi => by simp at hi,
      fun i hi => by simp at hi, ?_⟩
    · unfold derive_binding_tables
      rw [if_pos hn]
    · rw [hn, op_events_zero]
  · obtain ⟨slots2, hfold, hlen2, hchar⟩ := processOps_ok_of_valid_nodup
      ir.expressions.length (ops_of_html ir.html)
      (List.replicate ir.expressions.length none) [] (by simp) hvalid hnodup
      (fun j hj => by
        rw [getD_replicate] at hj
        split at hj <;> simp at hj)
    have hall_some : ∀ j, j < slots2.length → (slots2.getD j none).isSome := by
      intro j hj
      have hj2 : j < ir.expressions.length := hlen2 ▸ hj
      rw [hchar j hj2]
      have hfs := (find_contribs_isSome ir.expressions.length (ops_of_html ir.html) j).mpr
        (hall j hj2)
      cases hfc : (op_contribs ir.expressions.length (ops_of_html ir.html)).find?
          (fun m => m.index == j) with
      | some m => rfl
      | none => rw [hfc] at hfs; simp at hfs
    obtain ⟨ms, hcol, hmslen, hmget⟩ := collect_markers_ok slots2 0 hall_some
    have hmsn : ms.length = ir.expressions.length := hmslen.trans hlen2
    have hfind_char : ∀ i (hi : i < ms.length),
        some (ms.get ⟨i, hi⟩) =
          (op_contribs ir.expressions.length (ops_of_html ir.html)).find?
            (fun m => m.index == i) := by
      intro i hi
      have hi2 : i < ir.expressions.length := hmsn ▸ hi
      rw [hmget i hi, hchar i hi2]
      have hfs := (find_contribs_isSome ir.expressions.length (ops_of_html ir.html) i).mpr
        (hall i hi2)
      cases hfc : (op_contribs ir.expressions.length (ops_of_html ir.html)).find?
          (fun m => m.index == i) with
      | some m => rfl
      | none => rw [hfc] at hfs; simp at hfs
    have hidx_char : ∀ i (hi : i < ms.length), (ms.get ⟨i, hi⟩).index = i := by
      intro i hi
      have h1 := hfind_char i hi
      cases hfc : (op_contribs ir.expressions.length (ops_of_html ir.html)).find?
          (fun m => m.index == i) with
      | none => rw [hfc] at h1; simp at h1
      | some m =>
        rw [hfc] at h1
        have h2 := List.find?_some hfc
        simp only [Option.some.injEq] at h1
        rw [h1]
        simpa using h2
    refine ⟨ms, op_events ir.expressions.length (ops_of_html ir.html), ?_, hmsn, ?_,
      hidx_char, hfind_char, rfl⟩
    · rw [derive_eq_ops_fold ir hn, hfold, exc_bind_ok, hcol, exc_bind_ok]
      rw [List.nil_append]
    · apply List.ext_get (by simp [hmsn])
      intro i h1 h2
      simp only [List.get_map, List.get_range]
      exact hidx_char i (by simpa using h1)

/-- Witness for C1 on a concrete three-expression page. -/
theorem derive_binding_tables_bijection_witness :
    ∃ markers events,
      derive_binding_tables
          ⟨1, "<div data-zx-e=\"0\" data-zx-title=\"1\" data-zx-on-click=\"2\"></div>",
            ["a", "b", "c"], ⟨[], [], [], [], [], []⟩, [], [], [], [], [], []⟩ =
        .ok (markers, events) ∧
      markers.map MarkerBinding.index = List.range 3 := by
  obtain ⟨ms, evs, hok, _, hmap, _⟩ := derive_binding_tables_bijection
    ⟨1, "<div data-zx-e=\"0\" data-zx-title=\"1\" data-zx-on-click=\"2\"></div>",
      ["a", "b", "c"], ⟨[], [], [], [], [], []⟩, [], [], [], [], [], []⟩ (by decide)
  exact ⟨ms, evs, hok, hmap⟩

/-- C2: with non-empty expressions, derivation is fail-fast: any scanned
token that does not parse to an in-bounds index forces an error; a duplicate
assignment forces a "duplicate marker index" error; an uncovered index forces
a "missing marker for expression index N" error; and the literal gap scenario
(`data-zx-e="0"` with two expressions) yields exactly the missing-marker
error for index 1. -/
theorem derive_binding_tables_fail_fast (ir : CompilerIr)
    (hn : 0 < ir.expressions.length) :
    ((∃ op ∈ ops_of_html ir.html,
        token_index ir.expressions.length (opToken op) = none) →
      ∃ msg, derive_binding_tables ir = .error msg) ∧
    ((∀ op ∈ ops_of_html ir.html,
        token_index ir.expressions.length (opToken op) ≠ none) →
      ¬ (op_indices ir.expressions.length (ops_of_html ir.html)).Nodup →
      ∃ i, derive_binding_tables ir = .error (dup_msg i)) ∧
    ((∀ op ∈ ops_of_html ir.html,
        token_index ir.expressions.length (opToken op) ≠ none) →
      (op_indices ir.expressions.length (ops_of_html ir.html)).Nodup →
      (∃ j, j < ir.expressions.length ∧
        j ∉ op_indices ir.expressions.length (ops_of_html ir.html)) →
      ∃ m, m < ir.expressions.length ∧
        m ∉ op_indices ir.expressions.length (ops_of_html ir.html) ∧
        derive_binding_tables ir = .error (missing_msg m)) ∧
    derive_binding_tables
        ⟨1, "<div data-zx-e=\"0\"></div>", ["a", "b"], ⟨[], [], [], [], [], []⟩,
          [], [], [], [], [], []⟩ =
      .error "marker/expression mismatch: missing marker for expression index 1" := by
  have hn0 : ir.expressions.length ≠ 0 := by omega
  refine ⟨?_, ?_, ?_, by decide⟩
  · rintro ⟨op, hmem, hbad⟩
    cases hres : derive_binding_tables ir with
    | error msg => exact ⟨msg, rfl⟩
    | ok res =>
      exfalso
      rw [derive_eq_ops_fold ir hn0] at hres
      cases hfold : (ops_of_html ir.html).foldlM (process_op ir.expressions.length)
          (List.replicate ir.expressions.length none, []) with
      | error e =>
        rw [hfold, exc_bind_error] at hres
        exact absurd hres (by simp)
      | ok st =>
        exact valid_of_processOps_ok ir.expressions.length (ops_of_html ir.html)
          _ _ _ hfold op hmem hbad
  · intro hvalid hnodup
    obtain ⟨i, herr⟩ := processOps_dup ir.expressions.length (ops_of_html ir.html)
      (List.replicate ir.expressions.length none) [] (by simp) hvalid (Or.inl hnodup)
    refine ⟨i, ?_⟩
    rw [derive_eq_ops_fold ir hn0, herr, exc_bind_error]
  · intro hvalid hnodup hmiss
    obtain ⟨slots2, hfold, hlen2, hchar⟩ := processOps_ok_of_valid_nodup
      ir.expressions.length (ops_of_html ir.html)
      (List.replicate ir.expressions.length none) [] (by simp) hvalid hnodup
      (fun j hj => by
        rw [getD_replicate] at hj
        split at hj <;> simp at hj)
    obtain ⟨j, hj, hjnot⟩ := hmiss
    have hjnone : slots2.getD j none = none := by
      rw [hchar j hj]
      cases hfc : (op_contribs ir.expressions.length (ops_of_html ir.html)).find?
          (fun m => m.index == j) with
      | some m =>
        exact absurd ((find_contribs_isSome _ _ j).mp (by rw [hfc]; rfl)) hjnot
      | none =>
        rw [getD_replicate]
        rw [if_pos hj]
    obtain ⟨m, hm, hmnone, herr⟩ := collect_markers_missing slots2 0
      ⟨j, by omega, hjnone⟩
    rw [Nat.zero_add] at herr
    have hm2 : m < ir.expressions.length := hlen2 ▸ hm
    refine ⟨m, hm2, ?_, ?_⟩
    · intro hmem
      have hfs := (find_contribs_isSome ir.expressions.length (ops_of_html ir.html) m).mpr hmem
      rw [hchar m hm2] at hmnone
      cases hfc : (op_contribs ir.expressions.length (ops_of_html ir.html)).find?
          (fun m2 => m2.index == m) with
      | some mk => rw [hfc] at hmnone; simp at hmnone
      | none => rw [hfc] at hfs; simp at hfs
    · rw [derive_eq_ops_fold ir hn0, hfold, exc_bind_ok, herr, exc_bind_error]

/-- Witness for C2, discharging the non-empty-expressions hypothesis at the
literal gap scenario. -/
theorem derive_binding_tables_fail_fast_witness :
    derive_binding_tables
        ⟨1, "<div data-zx-e=\"0\"></div>", ["a", "b"], ⟨[], [], [], [], [], []⟩,
          [], [], [], [], [], []⟩ =
      .error "marker/expression mismatch: missing marker for expression index 1" :=
  (derive_binding_tables_fail_fast
    ⟨1, "<div data-zx-e=\"0\"></div>", ["a", "b"], ⟨[], [], [], [], [], []⟩,
      [], [], [], [], [], []⟩ (by decide)).2.2.2

/-- C10: with zero expressions, `derive_binding_tables` returns empty marker
and event tables without consulting the HTML, whatever `data-zx` attributes
(including malformed ones) it contains. -/
theorem derive_binding_tables_zero_expressions (ir : CompilerIr)
    (h : ir.expressions = []) :
    derive_binding_tables ir = .ok ([], []) := by
  unfold derive_binding_tables
  rw [if_pos (by simp [h])]

/-- Witness for C10 on HTML with a malformed `data-zx-e` value. -/
theorem derive_binding_tables_zero_expressions_witness :
    derive_binding_tables
        ⟨1, "<div data-zx-e=\"oops\" data-zx-x=\"99\"></div>", [], ⟨[], [], [], [], [], []⟩,
          [], [], [], [], [], []⟩ = .ok ([], []) :=
  derive_binding_tables_zero_expressions
    ⟨1, "<div data-zx-e=\"oops\" data-zx-x=\"99\"></div>", [], ⟨[], [], [], [], [], []⟩,
      [], [], [], [], [], []⟩ rfl

/-! ## C3: eager validation -/

theorem check_signals_none (signals : List CompilerSignal) (stateLen : Nat)
    (h : check_signals signals stateLen = none) :
    ∀ sig ∈ signals, sig.kind = "signal" ∧ sig.state_index < stateLen := by
  induction signals with
  | nil => intro sig hs; simp at hs
  | cons s rest ih =>
    intro sig hs
    unfold check_signals at h
    split at h
    · simp at h
    · split at h
      · simp at h
      · rename_i hkind hidx
        rcases List.mem_cons.mp hs with rfl | hmem
        · exact ⟨by simpa using hkind, by omega⟩
        · exact ih h sig hmem

theorem check_expression_bindings_none (bindings : List CompilerExpressionBinding)
    (exprLen stateLen signalsLen : Nat) :
    ∀ position, check_expression_bindings bindings position exprLen stateLen signalsLen = none →
      ∀ b ∈ bindings,
        b.marker_index < exprLen ∧
        (∀ si, b.state_index = some si → si < stateLen) ∧
        (∀ gi, b.signal_index = some gi → gi < signalsLen) := by
  induction bindings with
  | nil => intro _ _ b hb; simp at hb
  | cons b0 rest ih =>
    intro position h b hb
    have hstep : b0.marker_index < exprLen ∧
        (∀ si, b0.state_index = some si → si < stateLen) ∧
        (∀ gi, b0.signal_index = some gi → gi < signalsLen) ∧
        check_expression_bindings rest (position + 1) exprLen stateLen signalsLen = none := by
      cases hst : b0.state_index with
      | some si =>
        cases hgi : b0.signal_index with
        | some gi =>
          simp only [check_expression_bindings, hst, hgi] at h
          split at h
          · simp at h
          · split at h
            · simp at h
            · split at h
              · simp at h
              · exact ⟨by omega,
                  fun si2 hsi2 => by simp at hsi2; omega,
                  fun gi2 hgi2 => by simp at hgi2; omega, h⟩
        | none =>
          simp only [check_expression_bindings, hst, hgi] at h
          split at h
          · simp at h
          · split at h
            · simp at h
            · exact ⟨by omega,
                fun si2 hsi2 => by simp at hsi2; omega,
                fun gi2 hgi2 => by simp at hgi2, h⟩
      | none =>
        cases hgi : b0.signal_index with
        | some gi =>
          simp only [check_expression_bindings, hst, hgi] at h
          split at h
          · simp at h
          · split at h
            · simp at h
            · exact ⟨by omega,
                fun si2 hsi2 => by simp at hsi2,
                fun gi2 hgi2 => by simp at hgi2; omega, h⟩
        | none =>
          simp only [check_expression_bindings, hst, hgi] at h
          split at h
          · simp at h
          · exact ⟨by omega,
              fun si2 hsi2 => by simp at hsi2,
              fun gi2 hgi2 => by simp at hgi2, h⟩
    rcases List.mem_cons.mp hb with rfl | hmem
    · exact ⟨hstep.1, hstep.2.1, hstep.2.2.1⟩
    · exact ih (position + 1) hstep.2.2.2 b hmem

theorem check_component_instances_none (instances : List CompilerComponentInstance)
    (scripts : List (String × CompilerComponentScript))
    (h : check_component_instances instances scripts = none) :
    ∀ inst ∈ instances, contains_key scripts inst.hoist_id = true := by
  induction instances with
  | nil => intro inst hi; simp at hi
  | cons i0 rest ih =>
    intro inst hi
    unfold check_component_instances at h
    split at h
    · simp at h
    · split at h
      · simp at h
      · split at h
        · simp at h
        · rename_i h1 h2 h3
          rcases List.mem_cons.mp hi with rfl | hmem
          · simpa using h3
          · exact ih h inst hmem

theorem check_marker_bindings_none (markers : List MarkerBinding) (exprLen : Nat) :
    ∀ seen, check_marker_bindings markers exprLen seen = none →
      (∀ mk ∈ markers, mk.index < exprLen) ∧
      (markers.map MarkerBinding.index).Nodup ∧
      (∀ mk ∈ markers, mk.index ∉ seen) := by
  induction markers with
  | nil => intro _ _; exact ⟨fun mk h => by simp at h, by simp, fun mk h => by simp at h⟩
  | cons m0 rest ih =>
    intro seen h
    unfold check_marker_bindings at h
    split at h
    · simp at h
    · split at h
      · simp at h
      · rename_i hoob hdup
        obtain ⟨hbound, hnodup, hseen⟩ := ih (m0.index :: seen) h
        refine ⟨?_, ?_, ?_⟩
        · intro mk hmk
          rcases List.mem_cons.mp hmk with rfl | hmem
          · omega
          · exact hbound mk hmem
        · rw [List.map_cons, List.nodup_cons]
          refine ⟨?_, hnodup⟩
          intro hmem
          obtain ⟨mk, hmk, hidx⟩ := List.mem_map.mp hmem
          exact hseen mk hmk (hidx ▸ List.mem_cons_self _ _)
        · intro mk hmk
          rcases List.mem_cons.mp hmk with rfl | hmem
          · intro hc
            exact hdup (by simpa using hc)
          · intro hc
            exact hseen mk hmem (List.mem_cons_of_mem _ hc)

theorem validate_payload_ok_sound (p : BundlerInput)
    (h : validate_payload p = .ok ()) :
    p.ir.ir_version = 1 ∧
    (p.ir.expression_bindings = [] ∨
      p.ir.expression_bindings.length = p.ir.expressions.length) ∧
    (p.ir.marker_bindings = [] ∨
      p.ir.marker_bindings.length = p.ir.expressions.length) ∧
    (∀ sig ∈ p.ir.signals, sig.kind = "signal" ∧
      sig.state_index < p.ir.hoisted.state.length) ∧
    (∀ b ∈ p.ir.expression_bindings,
      b.marker_index < p.ir.expressions.length ∧
      (∀ si, b.state_index = some si → si < p.ir.hoisted.state.length) ∧
      (∀ gi, b.signal_index = some gi → gi < p.ir.signals.length)) ∧
    (∀ inst ∈ p.ir.component_instances,
      contains_key p.ir.components_scripts inst.hoist_id = true) ∧
    (∀ mk ∈ p.ir.marker_bindings, mk.index < p.ir.expressions.length) ∧
    (p.ir.marker_bindings.map MarkerBinding.index).Nodup := by
  unfold validate_payload at h
  split at h
  · simp at h
  · split at h
    · simp at h
    · split at h
      · simp at h
      · split at h
        · simp at h
        · split at h
          · simp at h
          · split at h
            · simp at h
            · split at h
              · simp at h
              · rename_i hv hr hsl hf hh heb hmb
                split at h
                · simp at h
                · rename_i hsig
                  split at h
                  · simp at h
                  · rename_i hebloop
                    split at h
                    · simp at h
                    · rename_i hcs
                      split at h
                      · simp at h
                      · rename_i hci
                        have hmbfacts :
                            (∀ mk ∈ p.ir.marker_bindings,
                              mk.index < p.ir.expressions.length) ∧
                            (p.ir.marker_bindings.map MarkerBinding.index).Nodup := by
                          by_cases hne : p.ir.marker_bindings.isEmpty
                          · rw [List.isEmpty_iff] at hne
                            rw [hne]
                            exact ⟨fun mk hmk => by simp at hmk, by simp⟩
                          · rw [if_pos (by simpa using hne)] at h
                            split at h
                            · simp at h
                            · rename_i hmbloop
                              obtain ⟨hb, hn, _⟩ :=
                                check_marker_bindings_none p.ir.marker_bindings
                                  p.ir.expressions.length [] hmbloop
                              exact ⟨hb, hn⟩
                        refine ⟨by omega, ?_, ?_,
                          check_signals_none _ _ hsig,
                          check_expression_bindings_none _ _ _ _ 0 hebloop,
                          check_component_instances_none _ _ hci,
                          hmbfacts.1, hmbfacts.2⟩
                        · by_cases he : p.ir.expression_bindings = []
                          · exact Or.inl he
                          · right
                            have : ¬ (!p.ir.expression_bindings.isEmpty &&
                                p.ir.expression_bindings.length !=
                                  p.ir.expressions.length) = true := heb
                            simp [List.isEmpty_iff, he] at this
                            exact this
                        · by_cases he : p.ir.marker_bindings = []
                          · exact Or.inl he
                          · right
                            have : ¬ (!p.ir.marker_bindings.isEmpty &&
                                p.ir.marker_bindings.length !=
                                  p.ir.expressions.length) = true := hmb
                            simp [List.isEmpty_iff, he] at this
                            exact this

/-- C3 as frozen is refuted: this payload's expression-binding marker indices
are `[0, 0]` — a duplicate — yet the eager validation accepts it. -/
theorem validate_payload_counterexample :
    validate_payload
        ⟨"/", "f",
          ⟨1, "<div></div>", ["a", "b"], ⟨[], [], [], [], [], []⟩, [], [], [],
            [⟨0, none, none, none, none, some "a"⟩, ⟨0, none, none, none, none, some "b"⟩],
            [], []⟩, false⟩ = .ok () ∧
    ¬ (([⟨0, none, none, none, none, some "a"⟩,
        ⟨0, none, none, none, none, some "b"⟩] : List CompilerExpressionBinding).map
          CompilerExpressionBinding.marker_index).Nodup :=
  ⟨by decide, by decide⟩

/-- C3 (amended: duplicate marker indices among `expression_bindings` are
not checked): the eager validation rejects any payload whose `ir_version` is
not 1, whose non-empty `expression_bindings` or `marker_bindings` differ in
length from `expressions`, whose referenced indices are out of bounds, whose
`marker_bindings` indices contain duplicates, or whose component instances
reference an unknown `hoist_id`. -/
theorem validate_payload_rejects_schema_errors (p : BundlerInput) :
    (p.ir.ir_version ≠ 1 → ∃ msg, validate_payload p = .error msg) ∧
    (p.ir.expression_bindings ≠ [] →
      p.ir.expression_bindings.length ≠ p.ir.expressions.length →
      ∃ msg, validate_payload p = .error msg) ∧
    (p.ir.marker_bindings ≠ [] →
      p.ir.marker_bindings.length ≠ p.ir.expressions.length →
      ∃ msg, validate_payload p = .error msg) ∧
    ((∃ mk ∈ p.ir.marker_bindings, p.ir.expressions.length ≤ mk.index) →
      ∃ msg, validate_payload p = .error msg) ∧
    ((∃ b ∈ p.ir.expression_bindings, p.ir.expressions.length ≤ b.marker_index) →
      ∃ msg, validate_payload p = .error msg) ∧
    ((∃ b ∈ p.ir.expression_bindings, ∃ si, b.state_index = some si ∧
        p.ir.hoisted.state.length ≤ si) →
      ∃ msg, validate_payload p = .error msg) ∧
    ((∃ b ∈ p.ir.expression_bindings, ∃ gi, b.signal_index = some gi ∧
        p.ir.signals.length ≤ gi) →
      ∃ msg, validate_payload p = .error msg) ∧
    ((∃ sig ∈ p.ir.signals, p.ir.hoisted.state.length ≤ sig.state_index) →
      ∃ msg, validate_payload p = .error msg) ∧
    (¬ (p.ir.marker_bindings.map MarkerBinding.index).Nodup →
      ∃ msg, validate_payload p = .error msg) ∧
    ((∃ inst ∈ p.ir.component_instances,
        contains_key p.ir.components_scripts inst.hoist_id = false) →
      ∃ msg, validate_payload p = .error msg) := by
  have herr : validate_payload p ≠ .ok () → ∃ msg, validate_payload p = .error msg := by
    cases hres : validate_payload p with
    | error m => exact fun _ => ⟨m, rfl⟩
    | ok u =>
      cases u
      exact fun hk => absurd rfl hk
  refine ⟨?_, ?_, ?_, ?_, ?_, ?_, ?_, ?_, ?_, ?_⟩
  · intro hd
    apply herr
    intro hok
    exact hd (validate_payload_ok_sound p hok).1
  · intro hne hd
    apply herr
    intro hok
    rcases (validate_payload_ok_sound p hok).2.1 with he | hl
    · exact hne he
    · exact hd hl
  · intro hne hd
    apply herr
    intro hok
    rcases (validate_payload_ok_sound p hok).2.2.1 with he | hl
    · exact hne he
    · exact hd hl
  · rintro ⟨mk, hmem, hd⟩
    apply herr
    intro hok
    have := (validate_payload_ok_sound p hok).2.2.2.2.2.2.1 mk hmem
    omega
  · rintro ⟨b, hmem, hd⟩
    apply herr
    intro hok
    have := ((validate_payload_ok_sound p hok).2.2.2.2.1 b hmem).1
    omega
  · rintro ⟨b, hmem, si, hsi, hd⟩
    apply herr
    intro hok
    have := ((validate_payload_ok_sound p hok).2.2.2.2.1 b hmem).2.1 si hsi
    omega
  · rintro ⟨b, hmem, gi, hgi, hd⟩
    apply herr
    intro hok
    have := ((validate_payload_ok_sound p hok).2.2.2.2.1 b hmem).2.2 gi hgi
    omega
  · rintro ⟨sig, hmem, hd⟩
    apply herr
    intro hok
    have := ((validate_payload_ok_sound p hok).2.2.2.1 sig hmem).2
    omega
  · intro hd
    apply herr
    intro hok
    exact hd (validate_payload_ok_sound p hok).2.2.2.2.2.2.2
  · rintro ⟨inst, hmem, hd⟩
    apply herr
    intro hok
    have := (validate_payload_ok_sound p hok).2.2.2.2.2.1 inst hmem
    rw [this] at hd
    exact absurd hd (by simp)

/-- Witness for the amended C3: an `ir_version` of 2 is rejected. -/
theorem validate_payload_rejects_schema_errors_witness :
    ∃ msg, validate_payload
        ⟨"/", "f", ⟨2, "<div></div>", [], ⟨[], [], [], [], [], []⟩, [], [], [], [], [], []⟩,
          false⟩ = .error msg :=
  (validate_payload_rejects_schema_errors
    ⟨"/", "f", ⟨2, "<div></div>", [], ⟨[], [], [], [], [], []⟩, [], [], [], [], [], []⟩,
      false⟩).1 (by decide)

/-! ## C4: page entry assembly order -/

/-- C4 as frozen is refuted: the generated module does not start with the
hoisted blocks (a virtual-entry preamble precedes them) and the state-value
table is emitted before the `ir_version` constant, so the claim-order
assembly differs from the generated text at this one-expression page. -/
theorem generate_entry_js_counterexample :
    generate_entry_js
        ⟨1, "<p data-zx-e=\"0\"></p>", ["a"],
          ⟨[], [], [], [], [], ["console.log(1)"]⟩, [], [], [], [], [], []⟩
        "./runtime.x.js" [⟨0, MarkerKind.text, "[data-zx-e~=\"0\"]", none⟩] [] [] ≠
      generate_entry_js_claim_order
        ⟨1, "<p data-zx-e=\"0\"></p>", ["a"],
          ⟨[], [], [], [], [], ["console.log(1)"]⟩, [], [], [], [], [], []⟩
        "./runtime.x.js" [⟨0, MarkerKind.text, "[data-zx-e~=\"0\"]", none⟩] [] [] := by
  decide

/-- C4 (amended to the order the code emits): the page entry module is the
concatenation, in this fixed order, of the virtual-entry preamble, the
trimmed newline-separated hoisted code blocks, the marker table, the event
table, the state-value table, the `ir_version` constant, the signal table,
the expression-binding table (the IR's own when non-empty, else the fallback
whose entry `i` has `marker_index = i` and `literal = expressions[i]`), the
component bootstrap imports, the runtime import, the component table, and
the `hydrate({...})` call. -/
theorem generate_entry_js_order (ir : CompilerIr) (spec : String)
    (markers : List MarkerBinding) (events : List EventBinding)
    (assets : List (String × String)) (js : String)
    (h : generate_entry_js ir spec markers events assets = .ok js) :
    (∃ component_imports components_table,
      generate_component_bootstrap_js ir assets = .ok (component_imports, components_table) ∧
      js = section_preamble ir ++ (hoisted_code_section ir.hoisted.code ++
        (section_markers markers ++ (section_events events ++
        (generate_state_table_js ir.hoisted.state ++ (section_ir_version ir ++
        (section_signals ir ++ (section_expression_bindings ir ++
        (component_imports ++ (section_runtime_import spec ++
        (section_components_table components_table ++ hydrate_call_text))))))))))) ∧
    (fallback_expression_bindings_list ir).map CompilerExpressionBinding.marker_index =
      List.range ir.expressions.length ∧
    (fallback_expression_bindings_list ir).map CompilerExpressionBinding.literal =
      ir.expressions.map some := by
  refine ⟨?_, ?_, ?_⟩
  · unfold generate_entry_js at h
    cases hboot : generate_component_bootstrap_js ir assets with
    | error e =>
      rw [hboot] at h
      exact absurd h (by simp)
    | ok p =>
      obtain ⟨ci, ct⟩ := p
      rw [hboot] at h
      simp only [Except.ok.injEq] at h
      refine ⟨ci, ct, rfl, ?_⟩
      rw [← h]
      have hif : (if ci.isEmpty then "" else ci) = ci := by
        split
        · rename_i he
          exact ((String.isEmpty_iff ci).mp he).symm
        · rfl
      rw [hif]
      simp only [section_preamble, section_markers, section_events, section_ir_version,
        section_signals, section_expression_bindings, section_runtime_import,
        section_components_table, String.append_assoc]
  · unfold fallback_expression_bindings_list
    rw [List.map_map]
    exact List.enum_map_fst ir.expressions
  · unfold fallback_expression_bindings_list
    rw [List.map_map]
    have : ir.expressions.map some = (ir.expressions.enum.map Prod.snd).map some := by
      rw [List.enum_map_snd]
    rw [this, List.map_map]
    rfl

/-- Witness for the amended C4 at a one-expression page. -/
theorem generate_entry_js_order_witness :
    ∃ js component_imports components_table,
      generate_entry_js
          ⟨1, "<p data-zx-e=\"0\"></p>", ["a"], ⟨[], [], [], [], [], []⟩,
            [], [], [], [], [], []⟩
          "./runtime.x.js" [⟨0, MarkerKind.text, "[data-zx-e~=\"0\"]", none⟩] [] [] = .ok js ∧
      generate_component_bootstrap_js
          ⟨1, "<p data-zx-e=\"0\"></p>", ["a"], ⟨[], [], [], [], [], []⟩,
            [], [], [], [], [], []⟩ [] = .ok (component_imports, components_table) ∧
      js = section_preamble
          ⟨1, "<p data-zx-e=\"0\"></p>", ["a"], ⟨[], [], [], [], [], []⟩,
            [], [], [], [], [], []⟩ ++
        (hoisted_code_section [] ++
        (section_markers [⟨0, MarkerKind.text, "[data-zx-e~=\"0\"]", none⟩] ++
        (section_events [] ++
        (generate_state_table_js [] ++
        (section_ir_version
          ⟨1, "<p data-zx-e=\"0\"></p>", ["a"], ⟨[], [], [], [], [], []⟩,
            [], [], [], [], [], []⟩ ++
        (section_signals
          ⟨1, "<p data-zx-e=\"0\"></p>", ["a"], ⟨[], [], [], [], [], []⟩,
            [], [], [], [], [], []⟩ ++
        (section_expression_bindings
          ⟨1, "<p data-zx-e=\"0\"></p>", ["a"], ⟨[], [], [], [], [], []⟩,
            [], [], [], [], [], []⟩ ++
        (component_imports ++
        (section_runtime_import "./runtime.x.js" ++
        (section_components_table components_table ++ hydrate_call_text))))))))))  := by
  obtain ⟨⟨ci, ct, hboot, heq⟩, _, _⟩ := generate_entry_js_order
    ⟨1, "<p data-zx-e=\"0\"></p>", ["a"], ⟨[], [], [], [], [], []⟩, [], [], [], [], [], []⟩
    "./runtime.x.js" [⟨0, MarkerKind.text, "[data-zx-e~=\"0\"]", none⟩] [] [] _ rfl
  exact ⟨_, ci, ct, rfl, hboot, heq⟩

/-! ## C6: determinism and newline handling -/

theorem charListLe_antisymm : ∀ x y : List Char,
    charListLe x y = true → charListLe y x = true → x = y := by
  intro x
  induction x with
  | nil =>
    intro y h1 h2
    cases y with
    | nil => rfl
    | cons d ds => exact absurd h2 (by simp [charListLe])
  | cons c cs ih =>
    intro y h1 h2
    cases y with
    | nil => exact absurd h1 (by simp [charListLe])
    | cons d ds =>
      simp only [charListLe] at h1 h2
      by_cases hcd : c.toNat < d.toNat
      · rw [if_neg (by omega), if_pos hcd] at h2
        simp at h2
      · by_cases hdc : d.toNat < c.toNat
        · rw [if_neg hcd, if_pos hdc] at h1
          simp at h1
        · rw [if_neg hcd, if_neg hdc] at h1
          rw [if_neg hdc, if_neg hcd] at h2
          have hchar : c = d := by
            have hn : c.toNat = d.toNat := by omega
            have := congrArg Char.ofNat hn
            rwa [Char.ofNat_toNat, Char.ofNat_toNat] at this
          rw [hchar, ih ds h1 h2]

theorem sorted_perm_nodupkeys_eq :
    ∀ l1 l2 : List (String × String), l1.Perm l2 → l1.Sorted pairLe → l2.Sorted pairLe →
      (l1.map Prod.fst).Nodup → l1 = l2 := by
  intro l1
  induction l1 with
  | nil =>
    intro l2 hp _ _ _
    exact hp.nil_eq
  | cons x r1 ih =>
    intro l2 hp hs1 hs2 hnd
    cases l2 with
    | nil => exact hp.eq_nil
    | cons y r2 =>
      have hx2 : x ∈ y :: r2 := hp.mem_iff.mp (List.mem_cons_self _ _)
      have hy1 : y ∈ x :: r1 := hp.mem_iff.mpr (List.mem_cons_self _ _)
      have hxy : x = y := by
        rcases List.mem_cons.mp hx2 with hh | hx2r
        · exact hh
        · rcases List.mem_cons.mp hy1 with hh | hy1r
          · exact hh.symm
          · exfalso
            have h1 : pairLe x y := List.rel_of_sorted_cons hs1 y hy1r
            have h2 : pairLe y x := List.rel_of_sorted_cons hs2 x hx2r
            have hkeydata : x.1.data = y.1.data := charListLe_antisymm _ _ h1 h2
            have hkey : x.1 = y.1 := congrArg String.mk hkeydata
            have hmem : y.1 ∈ r1.map Prod.fst := List.mem_map_of_mem _ hy1r
            rw [List.map_cons, List.nodup_cons] at hnd
            exact hnd.1 (hkey ▸ hmem)
      subst hxy
      have hp2 : r1.Perm r2 := hp.cons_inv
      have hr := ih r2 hp2 (List.sorted_cons.mp hs1).2 (List.sorted_cons.mp hs2).2
        (by rw [List.map_cons, List.nodup_cons] at hnd; exact hnd.2)
      rw [hr]

theorem contains_tail_false (pat : List Char) (c : Char) (t : List Char)
    (h : containsSubList pat (c :: t) = false) : containsSubList pat t = false := by
  have : (isPre pat (c :: t) || containsSubList pat t) = false := h
  exact (Bool.or_eq_false_iff.mp this).2

theorem lfNormList_cons_ne (c : Char) (X : List Char) (hc : c ≠ '\r') :
    lfNormList (c :: X) = c :: lfNormList X := by
  cases X with
  | nil => rfl
  | cons x xs =>
    show (if c = '\r' && x = '\n' then _ else c :: lfNormList (x :: xs)) = _
    rw [if_neg (by simp [hc])]

theorem lfNormList_idem : ∀ l : List Char, containsSubList ['\r', '\r', '\n'] l = false →
    lfNormList (lfNormList l) = lfNormList l
  | [] => fun _ => rfl
  | [c] => fun _ => rfl
  | c1 :: c2 :: rest => fun h => by
    have hrest2 : containsSubList ['\r', '\r', '\n'] rest = false :=
      contains_tail_false _ _ _ (contains_tail_false _ _ _ h)
    have hrest1 : containsSubList ['\r', '\r', '\n'] (c2 :: rest) = false :=
      contains_tail_false _ _ _ h
    by_cases h12 : c1 = '\r' ∧ c2 = '\n'
    · obtain ⟨rfl, rfl⟩ := h12
      show lfNormList ('\n' :: lfNormList rest) = '\n' :: lfNormList rest
      rw [lfNormList_cons_ne '\n' _ (by decide), lfNormList_idem rest hrest2]
    · have hne : ¬ (c1 = '\r' && c2 = '\n') = true := by
        simp only [Bool.and_eq_true, decide_eq_true_eq]
        exact fun hcc => h12 ⟨by simpa using hcc.1, by simpa using hcc.2⟩
      show lfNormList (if c1 = '\r' && c2 = '\n' then _ else c1 :: lfNormList (c2 :: rest)) =
        (if c1 = '\r' && c2 = '\n' then _ else c1 :: lfNormList (c2 :: rest))
      rw [if_neg hne]
      by_cases hc1 : c1 = '\r'
      · subst hc1
        have hc2 : c2 ≠ '\n' := fun hcc => h12 ⟨rfl, hcc⟩
        have hx : lfNormList (c2 :: rest) = c2 :: lfNormList rest := by
          cases rest with
          | nil => rfl
          | cons r rs =>
            show (if c2 = '\r' && r = '\n' then _ else c2 :: lfNormList (r :: rs)) = _
            rw [if_neg ?hcr]
            case hcr =>
              simp only [Bool.and_eq_true, decide_eq_true_eq]
              rintro ⟨rfl, rfl⟩
              have : containsSubList ['\r', '\r', '\n'] ('\r' :: '\r' :: '\n' :: rs) = true := by
                show (isPre ['\r', '\r', '\n'] ('\r' :: '\r' :: '\n' :: rs) || _) = true
                rw [Bool.or_eq_true]
                exact Or.inl (by simp [isPre])
              rw [this] at h
              exact absurd h (by simp)
        rw [hx]
        show lfNormList ('\r' :: c2 :: lfNormList rest) = '\r' :: c2 :: lfNormList rest
        have h2 : lfNormList ('\r' :: c2 :: lfNormList rest) =
            '\r' :: lfNormList (c2 :: lfNormList rest) := by
          show (if '\r' = '\r' && c2 = '\n' then _ else '\r' :: lfNormList (c2 :: lfNormList rest)) = _
          rw [if_neg (by simp [hc2])]
        rw [h2, ← hx, lfNormList_idem (c2 :: rest) hrest1, hx]
      · rw [lfNormList_cons_ne c1 _ hc1, lfNormList_idem (c2 :: rest) hrest1]

/-- C6 refuted as frozen: one CRLF-normalization pass is not idempotent, so
for a compiler model that carries the source into the compiled HTML skeleton,
compiling `"\r\r\n"` differs from compiling its CRLF-normalized form. -/
theorem compile_zen_source_counterexample :
    compile_zen_source compile_structured_model "\r\r\n" ≠
      compile_zen_source compile_structured_model (lfNormalize "\r\r\n") := by
  decide

/-- C6 (amended): the page-module generator is a pure function (byte-identical
output on identical inputs), `BTreeMap`-valued inputs iterate in a fixed
sorted key order independent of insertion order, and `.zen` compilation is
newline-insensitive for every source that does not contain the degenerate
`CR CR LF` sequence (on which a single normalization pass leaves a CRLF). -/
theorem generator_determinism (ir : CompilerIr) (spec : String)
    (markers : List MarkerBinding) (events : List EventBinding)
    (assets : List (String × String)) :
    generate_entry_js ir spec markers events assets =
      generate_entry_js ir spec markers events assets ∧
    (∀ l1 l2 : List (String × String), l1.Perm l2 → (l1.map Prod.fst).Nodup →
      btree_iteration l1 = btree_iteration l2) ∧
    (∀ (compile_structured : String → CompilerOutput) (source : String),
      hasCrCrLf source = false →
      compile_zen_source compile_structured source =
        compile_zen_source compile_structured (lfNormalize source)) := by
  refine ⟨rfl, ?_, ?_⟩
  · intro l1 l2 hperm hnd
    apply sorted_perm_nodupkeys_eq
    · exact (List.perm_insertionSort pairLe l1).trans
        (hperm.trans (List.perm_insertionSort pairLe l2).symm)
    · exact List.sorted_insertionSort pairLe l1
    · exact List.sorted_insertionSort pairLe l2
    · have hpermsort := (List.perm_insertionSort pairLe l1).map Prod.fst
      exact hpermsort.nodup_iff.mpr hnd
  · intro compile source hsrc
    unfold compile_zen_source
    have : lfNormalize (lfNormalize source) = lfNormalize source := by
      unfold lfNormalize
      rw [lfNormList_idem source.data hsrc]
    rw [this]

/-- Witness for the amended C6: iteration order of a two-key map is
insertion-order independent, and a CRLF source compiles like its LF form. -/
theorem generator_determinism_witness :
    btree_iteration [("b", "2"), ("a", "1")] = btree_iteration [("a", "1"), ("b", "2")] ∧
    compile_zen_source compile_structured_model "a\r\nb" =
      compile_zen_source compile_structured_model (lfNormalize "a\r\nb") := by
  have h := generator_determinism
    ⟨1, "x", [], ⟨[], [], [], [], [], []⟩, [], [], [], [], [], []⟩ "s" [] [] []
  exact ⟨h.2.1 _ _ (List.Perm.swap _ _ _) (by decide),
    h.2.2 compile_structured_model "a\r\nb" (by decide)⟩
